import Mathlib

/-!
Verification of the window docking and tiling layout engine of
audacious-plugins (`src/gtkui/layout.c` and `src/skins/ui_dock.c`),
shallowly embedded in Lean.

C strings are modelled as `List Char`, `gint` as `Int`, GTK window /
widget identity (pointer identity) as a `Nat` id.  Geometry queries
answered by GTK (`gtk_widget_get_allocation`, `gtk_window_get_position`)
are modelled by an oracle parameter.
-/

namespace Layout

/-- The `Item` structure of `layout.c`: a named, possibly floating panel.
`widget` is the id of the attached content widget (`none` when detached;
the `vbox` wrapper exists exactly when `widget` does and is not modelled
separately); `window` records whether a floating top-level window exists.
`dock, x, y, w, h` are the persisted fields. -/
structure Item where
  name : List Char
  widget : Option Nat
  window : Bool
  dock : Int
  x : Int
  y : Int
  w : Int
  h : Int
  deriving DecidableEq

/-- `item_new` in `layout.c` (the freshly allocated record; the append to
the global `items` list is modelled at each use site). -/
def item_new (name : List Char) : Item :=
  { name := name, widget := none, window := false,
    dock := -1, x := -1, y := -1, w := 0, h := 0 }

/-- GTK geometry oracle: current allocation of a widget's vbox and
current position of its floating window, keyed by widget id. -/
structure GuiOracle where
  allocW : Nat → Int
  allocH : Nat → Int
  winX : Nat → Int
  winY : Nat → Int

/-- `item_save_size`: refresh `w`/`h` from the live allocation and, for a
floating item, `x`/`y` from the window position.  A detached item is
never passed to it in the source (`layout_save` guards on `item->widget`);
we make it the identity there. -/
def item_save_size (g : GuiOracle) (it : Item) : Item :=
  match it.widget with
  | none => it
  | some wid =>
    let it' := { it with w := g.allocW wid, h := g.allocH wid }
    if it'.dock < 0 then { it' with x := g.winX wid, y := g.winY wid } else it'

/-! ### The persisted file format

`layout_save` writes, per item,
`item <name>\npane <d>\nx <d>\ny <d>\nw <d>\nh <d>\n` with `fprintf`.
We model `%d` output by `intChars` (standard decimal) and the file as a
`List Char` byte stream. -/

/-- Decimal digits of a natural number (fuel-indexed so that the kernel
can evaluate it; `natChars n` uses fuel `n`, which always suffices). -/
def natCharsAux : Nat → Nat → List Char
  | 0, n => [Nat.digitChar n]
  | fuel+1, n =>
    if n < 10 then [Nat.digitChar n]
    else natCharsAux fuel (n / 10) ++ [Nat.digitChar (n % 10)]

def natChars (n : Nat) : List Char := natCharsAux n n

/-- `printf("%d", i)` output. -/
def intChars (i : Int) : List Char :=
  if i < 0 then '-' :: natChars i.natAbs else natChars i.toNat

/-- One `key value\n` line as written by `layout_save`. -/
def kvLine (k v : List Char) : List Char := k ++ ' ' :: v ++ ['\n']

/-- The bytes `fprintf` emits for one item. -/
def item_record (it : Item) : List Char :=
  kvLine "item".toList it.name ++
  kvLine "pane".toList (intChars it.dock) ++
  kvLine "x".toList (intChars it.x) ++
  kvLine "y".toList (intChars it.y) ++
  kvLine "w".toList (intChars it.w) ++
  kvLine "h".toList (intChars it.h)

/-- `layout_save`: every item with a widget first has its geometry
refreshed in place by `item_save_size`; then each item is written out.
Returns the items list as it stands after the save together with the
file contents. -/
def layout_save (g : GuiOracle) (its : List Item) : List Item × List Char :=
  let saved := its.map (item_save_size g)
  (saved, (saved.map item_record).flatten)

/-! ### The reader (`parse_next`, `parse_integer`, `parse_string`,
`layout_load`) -/

/-- `fgets` with a buffer of 512 bytes: reads at most `fuel` characters,
stopping after a newline. Returns the line read and the rest of the
stream. -/
def fgetsAux : Nat → List Char → List Char × List Char
  | _, [] => ([], [])
  | 0, rest => ([], rest)
  | fuel+1, c :: rest =>
    if c = '\n' then ([c], rest)
    else
      let p := fgetsAux fuel rest
      (c :: p.1, p.2)

def fgets (s : List Char) : List Char × List Char := fgetsAux 511 s

/-- Splitting the whole stream into `fgets` lines (the source calls
`fgets` once per `parse_next`; reading all lines up front is equivalent
since each call consumes exactly one line).  Fuel-indexed by the stream
length, which always suffices as `fgets` consumes at least one
character from a nonempty stream. -/
def readLinesAux : Nat → List Char → List (List Char)
  | _, [] => []
  | 0, _ => []
  | fuel+1, c :: rest =>
    let p := fgets (c :: rest)
    p.1 :: readLinesAux fuel p.2

def readLines (s : List Char) : List (List Char) := readLinesAux s.length s

/-- `strchr (line, ' ')` splitting of `parse_next`: key before the first
space, value after it.  `none` models `parse_value == NULL`. -/
def splitAtSpace : List Char → Option (List Char × List Char)
  | [] => none
  | c :: rest =>
    if c = ' ' then some ([], rest)
    else
      match splitAtSpace rest with
      | none => none
      | some p => some (c :: p.1, p.2)

/-- `parse_next` truncates the value at the first newline
(`strchr (parse_value, '\n')`). -/
def truncAtNl (v : List Char) : List Char := v.takeWhile (fun c => c ≠ '\n')

/-- `parse_next` applied to one `fgets` line: the key/value pair, or
`none` when the line has no space. -/
def parse_next (line : List Char) : Option (List Char × List Char) :=
  match splitAtSpace line with
  | none => none
  | some p => some (p.1, truncAtNl p.2)

/-- `isspace` of the C locale, as used by `sscanf`. -/
def isCSpace (c : Char) : Bool :=
  c = ' ' ∨ c = '\t' ∨ c = '\n' ∨ c = '\x0b' ∨ c = '\x0c' ∨ c = '\r'

def digToNat (c : Char) : Nat := c.toNat - 48

/-- The digit run read by `%d` (at least one digit required; trailing
garbage ignored). -/
def readDigits (cs : List Char) : Option Nat :=
  let ds := cs.takeWhile Char.isDigit
  if ds.isEmpty then none
  else some (ds.foldl (fun a c => 10 * a + digToNat c) 0)

/-- `sscanf (s, "%d", &v)`: optional whitespace, optional sign, at least
one digit; `none` when the conversion fails (`sscanf` returns 0). -/
def sscanf_d (cs : List Char) : Option Int :=
  match cs.dropWhile isCSpace with
  | [] => none
  | c :: rest =>
    if c = '-' then
      match readDigits rest with
      | none => none
      | some n => some (-(n : Int))
    else if c = '+' then
      match readDigits rest with
      | none => none
      | some n => some ((n : Int))
    else
      match readDigits (c :: rest) with
      | none => none
      | some n => some ((n : Int))

/-- `parse_next` followed by `parse_integer (key, &v)` on one line. -/
def parse_integer (key : List Char) (line : List Char) : Option Int :=
  match parse_next line with
  | none => none
  | some p => if p.1 = key then sscanf_d p.2 else none

/-- `parse_next` followed by `parse_string (key)` on one line. -/
def parse_string (key : List Char) (line : List Char) : Option (List Char) :=
  match parse_next line with
  | none => none
  | some p => if p.1 = key then some p.2 else none

/-- The `while (1)` loop of `layout_load` over the `fgets` lines.  Note
that `item_new` runs (and the new `Item` joins the list) as soon as the
`item` line parses, before any of the integer fields is read; a record
whose later field is missing therefore leaves a partially-initialized
`Item` behind, with the `item_new` defaults in the unparsed fields. -/
def loadLoop : List (List Char) → List Item
  | [] => []
  | l0 :: t0 =>
    match parse_string "item".toList l0 with
    | none => []
    | some nm =>
      match t0 with
      | [] => [item_new nm]
      | l1 :: t1 =>
        match parse_integer "pane".toList l1 with
        | none => [item_new nm]
        | some d =>
          match t1 with
          | [] => [{ item_new nm with dock := d }]
          | l2 :: t2 =>
            match parse_integer "x".toList l2 with
            | none => [{ item_new nm with dock := d }]
            | some xv =>
              match t2 with
              | [] => [{ item_new nm with dock := d, x := xv }]
              | l3 :: t3 =>
                match parse_integer "y".toList l3 with
                | none => [{ item_new nm with dock := d, x := xv }]
                | some yv =>
                  match t3 with
                  | [] => [{ item_new nm with dock := d, x := xv, y := yv }]
                  | l4 :: t4 =>
                    match parse_integer "w".toList l4 with
                    | none => [{ item_new nm with dock := d, x := xv, y := yv }]
                    | some wv =>
                      match t4 with
                      | [] => [{ item_new nm with dock := d, x := xv, y := yv, w := wv }]
                      | l5 :: t5 =>
                        match parse_integer "h".toList l5 with
                        | none => [{ item_new nm with dock := d, x := xv, y := yv, w := wv }]
                        | some hv =>
                          { item_new nm with dock := d, x := xv, y := yv, w := wv, h := hv }
                            :: loadLoop t5

/-- `layout_load` on the byte stream of the layout file (the items list
is empty on entry, per its `g_return_if_fail (! items)` guard). -/
def layout_load (file : List Char) : List Item := loadLoop (readLines file)

end Layout

namespace Layout

/-- Items produced by `layout_load` carry no widget and no window. -/
def detach (it : Item) : Item := { it with widget := none, window := false }

/-- The six `fgets` lines of one saved record. -/
def recLines (it : Item) : List (List Char) :=
  [kvLine "item".toList it.name,
   kvLine "pane".toList (intChars it.dock),
   kvLine "x".toList (intChars it.x),
   kvLine "y".toList (intChars it.y),
   kvLine "w".toList (intChars it.w),
   kvLine "h".toList (intChars it.h)]

/-- `gint` range (the persisted fields have C type `gint`). -/
def gintOk (i : Int) : Prop := -2147483648 ≤ i ∧ i < 2147483648

/-- The well-formedness the engine guarantees for every live item: the
name guard of `layout_add` (at most 256 chars, no newline) and the
`gint` type of the numeric fields. -/
def itemFileOk (it : Item) : Prop :=
  '\n' ∉ it.name ∧ it.name.length ≤ 256 ∧
  gintOk it.dock ∧ gintOk it.x ∧ gintOk it.y ∧ gintOk it.w ∧ gintOk it.h

/-- The bytes of a record truncated after its first `k + 1` lines
(`k ≤ 4`): the `item` line plus the first `k` integer lines. -/
def truncRecord (it : Item) (k : Nat) : List Char :=
  ((recLines it).take (k + 1)).flatten

/-- The partially-initialized `Item` that `layout_load` leaves behind
for a record whose `item` line parsed but whose integer fields stop
after the first `k`: parsed fields are taken over, the rest keep the
`item_new` defaults. -/
def truncItem (it : Item) (k : Nat) : Item :=
  match k with
  | 0 => item_new it.name
  | 1 => { item_new it.name with dock := it.dock }
  | 2 => { item_new it.name with dock := it.dock, x := it.x }
  | 3 => { item_new it.name with dock := it.dock, x := it.x, y := it.y }
  | _ => { item_new it.name with dock := it.dock, x := it.x, y := it.y, w := it.w }

instance (i : Int) : Decidable (gintOk i) := by
  unfold gintOk
  infer_instance

instance (it : Item) : Decidable (itemFileOk it) := by
  unfold itemFileOk
  infer_instance

/-! ### `layout_add` / `layout_remove` over the items list

The GTK pane-tree surgery of `item_add` / `item_remove` is external
widget plumbing; its effect visible on the `Item` is whether a floating
window is created (`dock < 0`) and, on removal, that `widget`, `vbox`
and `window` are nulled by the destroy handlers.  The items list itself
keeps its order: neither function relinks the list. -/

/-- Rewrite the first list entry satisfying `p` (the
`g_list_find_custom` target) with `f`. -/
def setFirst (p : Item → Bool) (f : Item → Item) : List Item → List Item
  | [] => []
  | it :: rest => if p it then f it :: rest else it :: setFirst p f rest

/-- The `Item`-visible effect of `item_add`: a floating item
(`dock < 0`) gets a fresh top-level window; a docked item is threaded
into its bay's pane chain (external) and gets no window. -/
def item_add_m (it : Item) : Item :=
  if it.dock < 0 then { it with window := true } else it

/-- `layout_add (widget, name)`.  Guards from the source: the name must
be at most 256 chars without a newline; an existing item for the name
must be fully detached, else the call returns without effect.  An item
whose persisted `dock` is `>= DOCKS` is reset to `-1` (floating) before
the attach. -/
def layout_add (st : List Item) (wid : Nat) (nm : List Char) : List Item :=
  if ¬ (nm.length ≤ 256 ∧ '\n' ∉ nm) then st
  else
    match st.find? (fun it => it.name = nm) with
    | some it =>
      if it.widget.isSome ∨ it.window then st
      else
        setFirst (fun i => i.name = nm)
          (fun i =>
            let i' := if i.dock ≥ 4 then { i with dock := -1 } else i
            item_add_m { i' with widget := some wid }) st
    | none => st ++ [item_add_m { item_new nm with widget := some wid }]

/-- `layout_remove (widget)`: find the item by widget, save its current
geometry into it (`item_save_size`), detach.  The placeholder survives
in place. -/
def layout_remove (g : GuiOracle) (st : List Item) (wid : Nat) : List Item :=
  match st.find? (fun it => it.widget = some wid) with
  | none => st
  | some _ =>
    setFirst (fun it => it.widget = some wid)
      (fun it => { item_save_size g it with widget := none, window := false }) st

end Layout

namespace Dock

/-- A top-level window as the dock engine sees it: an identity (the
`GtkWindow *` pointer) and the geometry GTK reports for it. -/
structure Window where
  id : Nat
  x : Int
  y : Int
  w : Int
  h : Int
  deriving DecidableEq

/-- The transient `DockedWindow` node: a window reference plus its
offset from the grabbed window at capture time. -/
structure DockedWindow where
  w : Window
  offset_x : Int
  offset_y : Int
  deriving DecidableEq

/-- `docked_list_compare`: 0 iff the two nodes reference the same
window (`a->w == b->w`, pointer identity, modelled by the id). -/
def docked_list_compare (a b : DockedWindow) : Int :=
  if a.w.id = b.w.id then 0 else 1

/-- `g_list_find_custom (dlist, &temp, docked_list_compare)` with
`temp.w = win`: membership by window identity. -/
def inDlist (dlist : List DockedWindow) (win : Window) : Bool :=
  dlist.any (fun dw => docked_list_compare dw ⟨win, 0, 0⟩ = 0)

/-- `is_docked` of `ui_dock.c`: edge-abutting rectangles with
overlapping perpendicular span. -/
def is_docked (a_x a_y a_w a_h b_x b_y b_w b_h : Int) : Bool :=
  if (a_x = b_x + b_w ∨ a_x + a_w = b_x) ∧ b_y + b_h ≥ a_y ∧ b_y ≤ a_y + a_h then
    true
  else if (a_y = b_y + b_h ∨ a_y + a_h = b_y) ∧ b_x ≥ a_x - b_w ∧ b_x ≤ a_x + a_w then
    true
  else false

/-- `is_docked` applied to two windows' geometries. -/
def is_dockedW (a b : Window) : Bool :=
  is_docked a.x a.y a.w a.h b.x b.y b.w b.h

def idsOf (dlist : List DockedWindow) : List Nat := dlist.map (fun dw => dw.w.id)

/-- Distinct ids of `wlist` not yet present in `dlist`: the termination
measure of the flood fill. -/
def missingIds (wlist : List Window) (dlist : List DockedWindow) : Nat :=
  ((wlist.map Window.id).dedup.filter (fun i => ¬ i ∈ idsOf dlist)).length

theorem idsOf_append (d : List DockedWindow) (t : List DockedWindow) :
    idsOf (d ++ t) = idsOf d ++ idsOf t := by
  simp [idsOf]

theorem missingIds_mono (wlist : List Window) (d r : List DockedWindow)
    (h : ∀ i, i ∈ idsOf d → i ∈ idsOf r) :
    missingIds wlist r ≤ missingIds wlist d := by
  apply List.Sublist.length_le
  apply List.monotone_filter_right
  intro a ha
  simp only [decide_eq_true_eq] at ha ⊢
  exact fun hmem => ha (h a hmem)

theorem missingIds_strict (wlist : List Window) (d : List DockedWindow)
    (dw : DockedWindow) (hin : dw.w.id ∈ wlist.map Window.id)
    (hout : dw.w.id ∉ idsOf d) :
    missingIds wlist (d ++ [dw]) < missingIds wlist d := by
  have hsub : List.Sublist
      ((wlist.map Window.id).dedup.filter (fun i => ¬ i ∈ idsOf (d ++ [dw])))
      ((wlist.map Window.id).dedup.filter (fun i => ¬ i ∈ idsOf d)) := by
    apply List.monotone_filter_right
    intro a ha
    simp only [decide_eq_true_eq, idsOf_append] at ha ⊢
    intro hmem
    exact ha (List.mem_append_left _ hmem)
  have hmem1 : dw.w.id ∈ (wlist.map Window.id).dedup.filter (fun i => ¬ i ∈ idsOf d) := by
    rw [List.mem_filter, List.mem_dedup]
    exact ⟨hin, by simpa using hout⟩
  have hmem2 : dw.w.id ∉ (wlist.map Window.id).dedup.filter
      (fun i => ¬ i ∈ idsOf (d ++ [dw])) := by
    rw [List.mem_filter]
    rintro ⟨-, hno⟩
    simp [idsOf_append, idsOf] at hno
  apply lt_of_le_of_ne hsub.length_le
  intro heq
  rw [hsub.eq_of_length heq] at hmem2
  exact hmem2 hmem1

theorem inDlist_iff (dlist : List DockedWindow) (win : Window) :
    inDlist dlist win = true ↔ win.id ∈ idsOf dlist := by
  simp only [inDlist, List.any_eq_true, decide_eq_true_eq, docked_list_compare,
    idsOf, List.mem_map]
  constructor
  · rintro ⟨dw, hmem, heq⟩
    refine ⟨dw, hmem, ?_⟩
    by_cases h : dw.w.id = win.id
    · exact h
    · simp [h] at heq
  · rintro ⟨dw, hmem, heq⟩
    exact ⟨dw, hmem, by simp [heq]⟩

/-- Everything the flood-fill loop guarantees about its result `r`,
relative to its arguments: (1) it only appends to `dlist`;
(2) every entry is an old entry or references a candidate window;
(3) it preserves distinctness of the referenced window ids;
(4) every remaining candidate docked to `w` ends up captured;
(5) every newly captured window has all its docked candidates captured;
(6) capture-time offsets: if the old entries' offsets equal their
window positions relative to a common origin and `(ix, iy)` is `w`'s
offset from that origin, the same holds of every entry of `r`. -/
def GdlInv (wlist : List Window) (dlist : List DockedWindow) (rem : List Window)
    (w : Window) (ix iy : Int) (r : List DockedWindow) : Prop :=
  (∃ t, r = dlist ++ t) ∧
  (∀ dw ∈ r, dw ∈ dlist ∨ dw.w ∈ wlist) ∧
  ((idsOf dlist).Nodup → (idsOf r).Nodup) ∧
  (∀ node ∈ rem, is_dockedW w node = true → node.id ∈ idsOf r) ∧
  (∀ dw ∈ r, dw ∈ dlist ∨
    ∀ node ∈ wlist, is_dockedW dw.w node = true → node.id ∈ idsOf r) ∧
  (∀ ox oy : Int, ix = w.x - ox → iy = w.y - oy →
    (∀ dw ∈ dlist, dw.offset_x = dw.w.x - ox ∧ dw.offset_y = dw.w.y - oy) →
    ∀ dw ∈ r, dw.offset_x = dw.w.x - ox ∧ dw.offset_y = dw.w.y - oy)

theorem idsOf_subset_of_sub {d r : List DockedWindow}
    (h : ∃ t, r = d ++ t) : ∀ i ∈ idsOf d, i ∈ idsOf r := by
  obtain ⟨t, rfl⟩ := h
  intro i hi
  rw [idsOf_append]
  exact List.mem_append_left _ hi

/-- The body of `get_docked_list`: the `for` loop over the candidate
list `wlist` (with `rem` the nodes still to visit), which on finding a
not-yet-captured window docked to `w` appends it and recurses into it
with the full candidate list.  In the source the recursion re-enters
`get_docked_list`; since the list passed down there is never empty, its
entry-add is a no-op and the recursion goes straight back into the
loop, which is how it is written here.  The return type carries the
loop invariant `GdlInv`, proved as the result is built; termination
holds because every appended window carries a `wlist` id not yet
present (measure `missingIds`). -/
def gdlLoop (wlist : List Window) (dlist : List DockedWindow) (rem : List Window)
    (w : Window) (ix iy : Int) (hrem : ∀ n ∈ rem, n ∈ wlist) :
    { r : List DockedWindow // GdlInv wlist dlist rem w ix iy r } :=
  match rem with
  | [] =>
    ⟨dlist, ⟨[], by simp⟩, fun dw hdw => Or.inl hdw, fun h => h,
      fun node hnode => absurd hnode (List.not_mem_nil node),
      fun dw hdw => Or.inl hdw,
      fun ox oy hx hy hall => hall⟩
  | node :: rest =>
    if hm : inDlist dlist node then
      let p := gdlLoop wlist dlist rest w ix iy
        (fun n hn => hrem n (List.mem_cons_of_mem _ hn))
      ⟨p.val, p.property.1, p.property.2.1, p.property.2.2.1, by
        intro nd hnd hdock
        rcases List.mem_cons.1 hnd with h1 | h1
        · rw [h1]
          exact idsOf_subset_of_sub p.property.1 _ ((inDlist_iff _ _).1 hm)
        · exact p.property.2.2.2.1 nd h1 hdock,
        p.property.2.2.2.2.1, p.property.2.2.2.2.2⟩
    else if hd : is_dockedW w node then
      let dwin : DockedWindow := ⟨node, node.x - w.x + ix, node.y - w.y + iy⟩
      let r1 := gdlLoop wlist (dlist ++ [dwin]) wlist dwin.w dwin.offset_x dwin.offset_y
        (fun n hn => hn)
      let r2 := gdlLoop wlist r1.val rest w ix iy
        (fun n hn => hrem n (List.mem_cons_of_mem _ hn))
      ⟨r2.val, by
        obtain ⟨t1, h1⟩ := r1.property.1
        obtain ⟨t2, h2⟩ := r2.property.1
        exact ⟨[dwin] ++ t1 ++ t2, by simp [h2, h1]⟩, by
        intro dw hdw
        rcases r2.property.2.1 dw hdw with h1 | h1
        · rcases r1.property.2.1 dw h1 with h2 | h2
          · rcases List.mem_append.1 h2 with h3 | h3
            · exact Or.inl h3
            · right
              rw [List.mem_singleton.1 h3]
              exact hrem node (List.mem_cons_self _ _)
          · exact Or.inr h2
        · exact Or.inr h1, by
        intro h
        apply r2.property.2.2.1
        apply r1.property.2.2.1
        have hnode : node.id ∉ idsOf dlist := by
          rw [← inDlist_iff]
          simp [hm]
        rw [idsOf_append]
        apply List.Nodup.append h
        · exact List.nodup_singleton _
        · intro a ha hb
          rcases List.mem_singleton.1 hb with h3
          rw [h3] at ha
          exact hnode ha, by
        intro nd hnd hdock
        rcases List.mem_cons.1 hnd with h1 | h1
        · rw [h1]
          apply idsOf_subset_of_sub r2.property.1
          apply idsOf_subset_of_sub r1.property.1
          rw [idsOf_append]
          apply List.mem_append_right
          exact List.mem_singleton.2 rfl
        · exact r2.property.2.2.2.1 nd h1 hdock, by
        intro dw hdw
        rcases r2.property.2.2.2.2.1 dw hdw with h1 | h1
        · rcases r1.property.2.2.2.2.1 dw h1 with h2 | h2
          · rcases List.mem_append.1 h2 with h3 | h3
            · exact Or.inl h3
            · right
              rw [List.mem_singleton.1 h3]
              intro nd hnd hdock
              apply idsOf_subset_of_sub r2.property.1
              exact r1.property.2.2.2.1 nd hnd hdock
          · right
            intro nd hnd hdock
            apply idsOf_subset_of_sub r2.property.1
            exact h2 nd hnd hdock
        · exact Or.inr h1, by
        intro ox oy hx hy hall
        apply r2.property.2.2.2.2.2 ox oy hx hy
        apply r1.property.2.2.2.2.2 ox oy
          (by show node.x - w.x + ix = node.x - ox; omega)
          (by show node.y - w.y + iy = node.y - oy; omega)
        intro dw hdw
        rcases List.mem_append.1 hdw with h1 | h1
        · exact hall dw h1
        · rw [List.mem_singleton.1 h1]
          constructor
          · show node.x - w.x + ix = node.x - ox
            omega
          · show node.y - w.y + iy = node.y - oy
            omega⟩
    else
      let p := gdlLoop wlist dlist rest w ix iy
        (fun n hn => hrem n (List.mem_cons_of_mem _ hn))
      ⟨p.val, p.property.1, p.property.2.1, p.property.2.2.1, by
        intro nd hnd hdock
        rcases List.mem_cons.1 hnd with h1 | h1
        · rw [h1] at hdock
          exact absurd hdock hd
        · exact p.property.2.2.2.1 nd h1 hdock,
        p.property.2.2.2.2.1, p.property.2.2.2.2.2⟩
  termination_by (missingIds wlist dlist, rem.length)
  decreasing_by
  · apply Prod.Lex.right
    simp
  · apply Prod.Lex.left
    apply missingIds_strict
    · exact List.mem_map_of_mem _ (hrem node (List.mem_cons_self _ _))
    · rw [← inDlist_iff]
      simp [hm]
  · apply Prod.Lex.left
    obtain ⟨t1, h1⟩ := r1.property.1
    calc missingIds wlist r1.val ≤ missingIds wlist (dlist ++ [dwin]) := by
          apply missingIds_mono
          intro i hi
          rw [h1, idsOf]
          rw [idsOf] at hi
          simp only [List.map_append] at *
          exact List.mem_append_left _ hi
      _ < missingIds wlist dlist := by
          apply missingIds_strict
          · exact List.mem_map_of_mem _ (hrem node (List.mem_cons_self _ _))
          · rw [← inDlist_iff]
            simp [hm]
  · apply Prod.Lex.right
    simp

/-- `get_docked_list (dlist, wlist, w, init_off_x, init_off_y)`: when
called with an empty list, the grabbed window itself is added first with
offset (0, 0); then the candidate loop runs. -/
def get_docked_list (dlist : List DockedWindow) (wlist : List Window) (w : Window)
    (init_off_x init_off_y : Int) : List DockedWindow :=
  let dlist' := if dlist.isEmpty then [⟨w, 0, 0⟩] else dlist
  (gdlLoop wlist dlist' wlist w init_off_x init_off_y (fun _ hn => hn)).val

/-! ### Snapping (`snap_edge`, `snap`, `calc_snap_offset`) -/

/-- The pieces of `config` and of the screen the snap engine reads. -/
structure DockConfig where
  snap_windows : Bool
  snap_distance : Int
  screenW : Int
  screenH : Int

/-- `snap_edge (&x, &y, w, h, bx, by, bw, bh)`: align `x` so the moving
rectangle abuts the left (then right) edge of the base rectangle when
within `snap_distance`, and align `y` to the base's top/bottom edge when
close.  The two inner `if`s run sequentially on the updated `y`, and the
second outer `if` tests the possibly-updated `x`, exactly as the
statements execute in the source. -/
def snap_edge (cfg : DockConfig) (x y w h bx b_y bw bh : Int) : Int × Int :=
  let sd := cfg.snap_distance
  let p1 :=
    if x + w > bx - sd ∧ x + w < bx + sd ∧ y > b_y - h - sd ∧ y < b_y + bh + sd then
      let x' := bx - w
      let y' := if y > b_y - sd ∧ y < b_y + sd then b_y else y
      let y'' := if y' + h > b_y + bh - sd ∧ y' + h < b_y + bh + sd then b_y + bh - h else y'
      (x', y'')
    else (x, y)
  if p1.1 > bx + bw - sd ∧ p1.1 < bx + bw + sd ∧ p1.2 > b_y - h - sd ∧ p1.2 < b_y + bh + sd then
    let x' := bx + bw
    let y' := if p1.2 > b_y - sd ∧ p1.2 < b_y + sd then b_y else p1.2
    let y'' := if y' + h > b_y + bh - sd ∧ y' + h < b_y + bh + sd then b_y + bh - h else y'
    (x', y'')
  else p1

/-- `snap`: `snap_edge` on x against y, then with the roles of the axes
swapped. -/
def snap (cfg : DockConfig) (x y w h bx b_y bw bh : Int) : Int × Int :=
  let p1 := snap_edge cfg x y w h bx b_y bw bh
  let p2 := snap_edge cfg p1.2 p1.1 h w b_y bx bh bw
  (p2.2, p2.1)

/-- `abs` of C (`stdlib.h`) on `gint`. -/
def cAbs (i : Int) : Int := if i < 0 then -i else i

/-- The four screen-edge corrections of `calc_snap_offset` for one
docked window at `(nx, ny)` of size `(nw, nh)`; the tests all use the
`nx`/`ny` computed before them, while the deltas accumulate into the
offset. -/
def screenSnap (cfg : DockConfig) (nx ny nw nh : Int) (off : Int × Int) : Int × Int :=
  let o1 := if cAbs nx < cfg.snap_distance then (off.1 - nx, off.2) else off
  let o2 := if cAbs ny < cfg.snap_distance then (o1.1, o1.2 - ny) else o1
  let o3 := if cAbs (nx + nw - cfg.screenW) < cfg.snap_distance
    then (o2.1 - (nx + nw - cfg.screenW), o2.2) else o2
  if cAbs (ny + nh - cfg.screenH) < cfg.snap_distance
    then (o3.1, o3.2 - (ny + nh - cfg.screenH)) else o3

/-- One iteration of the inner `wnode` loop of `calc_snap_offset`:
windows already captured are skipped; otherwise the candidate position
of `dw` (recomputed with the current accumulated offset) is snapped
against the other window and the delta is added to the offset. -/
def winSnapStep (cfg : DockConfig) (dlist : List DockedWindow) (dw : DockedWindow)
    (x y : Int) (o : Int × Int) (node : Window) : Int × Int :=
  if inDlist dlist node then o
  else
    let nx := dw.offset_x + o.1 + x
    let ny := dw.offset_y + o.2 + y
    let p := snap cfg nx ny dw.w.w dw.w.h node.x node.y node.w node.h
    (o.1 + (p.1 - nx), o.2 + (p.2 - ny))

/-- One iteration of the outer `dnode` loop of `calc_snap_offset`:
screen-edge snapping for `dw`, then the inner loop over all candidate
windows. -/
def dwStep (cfg : DockConfig) (dlist : List DockedWindow) (wlist : List Window)
    (x y : Int) (off : Int × Int) (dw : DockedWindow) : Int × Int :=
  let nx := dw.offset_x + off.1 + x
  let ny := dw.offset_y + off.2 + y
  let off1 := screenSnap cfg nx ny dw.w.w dw.w.h off
  wlist.foldl (winSnapStep cfg dlist dw x y) off1

/-- `calc_snap_offset (dlist, wlist, x, y, &off_x, &off_y)`. -/
def calc_snap_offset (cfg : DockConfig) (dlist : List DockedWindow)
    (wlist : List Window) (x y : Int) : Int × Int :=
  if ¬ cfg.snap_windows then (0, 0)
  else dlist.foldl (dwStep cfg dlist wlist x y) (0, 0)

/-- "No edge of the moving rectangle is within `sd` of the base
rectangle's left/right edge with overlapping span": the negations of
the two guard conditions of `snap_edge`. -/
def snapEdgeFar (sd x y w h bx b_y bw bh : Int) : Prop :=
  ¬ (x + w > bx - sd ∧ x + w < bx + sd ∧ y > b_y - h - sd ∧ y < b_y + bh + sd) ∧
  ¬ (x > bx + bw - sd ∧ x < bx + bw + sd ∧ y > b_y - h - sd ∧ y < b_y + bh + sd)

/-- Out of snapping range in both axes (the two `snap_edge` calls of
`snap`). -/
def snapFar (sd x y w h bx b_y bw bh : Int) : Prop :=
  snapEdgeFar sd x y w h bx b_y bw bh ∧ snapEdgeFar sd y x h w b_y bx bh bw

/-- All four screen edges out of snapping range. -/
def screenFar (cfg : DockConfig) (nx ny nw nh : Int) : Prop :=
  ¬ (cAbs nx < cfg.snap_distance) ∧ ¬ (cAbs ny < cfg.snap_distance) ∧
  ¬ (cAbs (nx + nw - cfg.screenW) < cfg.snap_distance) ∧
  ¬ (cAbs (ny + nh - cfg.screenH) < cfg.snap_distance)

instance (sd x y w h bx b_y bw bh : Int) :
    Decidable (snapEdgeFar sd x y w h bx b_y bw bh) := by
  unfold snapEdgeFar
  infer_instance

instance (sd x y w h bx b_y bw bh : Int) :
    Decidable (snapFar sd x y w h bx b_y bw bh) := by
  unfold snapFar
  infer_instance

instance (cfg : DockConfig) (nx ny nw nh : Int) :
    Decidable (screenFar cfg nx ny nw nh) := by
  unfold screenFar
  infer_instance

/-! ### The drag state (`dock_move_press`, `dock_move_motion`,
`dock_is_moving`)

The per-window `g_object_set_data` slots (`is_moving`, `move_offset_*`,
`docked_list`, `window_list`) are modelled as a state record, together
with the `config.show_wm_decorations` flag read by `dock_move_press`. -/

structure DragState where
  show_wm_decorations : Bool
  is_moving : Bool
  move_offset_x : Int
  move_offset_y : Int
  docked_list : List DockedWindow
  window_list : List Window
  deriving DecidableEq

/-- `dock_move_press`: aside from the `show_wm_decorations` early
return, it unconditionally stores the grab offsets, captures a fresh
docked list (the full flood fill when `move_list`, else just the
grabbed window) and sets the `is_moving` marker. -/
def dock_move_press (st : DragState) (window_list : List Window) (w : Window)
    (ev_x ev_y : Int) (move_list : Bool) : DragState :=
  if st.show_wm_decorations then st
  else
    { st with
      move_offset_x := ev_x
      move_offset_y := ev_y
      docked_list :=
        if move_list then get_docked_list [] window_list w 0 0 else [⟨w, 0, 0⟩]
      window_list := window_list
      is_moving := true }

/-- `dock_is_moving`. -/
def dock_is_moving (st : DragState) : Bool := st.is_moving

/-- `docked_list_move (list, x, y)`: the `gtk_window_move` targets it
issues, one per captured window (the parallel `config.*_x/_y` and
`SkinnedWindow` bookkeeping stores the same coordinates). -/
def docked_list_move (list : List DockedWindow) (x y : Int) :
    List (Window × Int × Int) :=
  list.map (fun dw => (dw.w, x + dw.offset_x, y + dw.offset_y))

/-- `dock_move_motion`: no-op without the `is_moving` marker; otherwise
compute the candidate base position from the pointer, apply the snap
correction, and move every captured window from the same corrected
base. -/
def dock_move_motion (cfg : DockConfig) (st : DragState) (x_root y_root : Int) :
    List (Window × Int × Int) :=
  if ¬ st.is_moving then []
  else
    let x := x_root - st.move_offset_x
    let y := y_root - st.move_offset_y
    let p := calc_snap_offset cfg st.docked_list st.window_list x y
    docked_list_move st.docked_list (x + p.1) (y + p.2)

end Dock


/-! ## Proof layer -/

namespace Layout

theorem digToNat_digitChar {d : Nat} (h : d < 10) :
    digToNat (Nat.digitChar d) = d := by
  interval_cases d <;> rfl

theorem isDigit_digitChar {d : Nat} (h : d < 10) :
    (Nat.digitChar d).isDigit = true := by
  interval_cases d <;> decide

theorem natCharsAux_digits :
    ∀ (fuel n : Nat), n ≤ fuel → ∀ c ∈ natCharsAux fuel n, c.isDigit = true := by
  intro fuel
  induction fuel with
  | zero =>
    intro n hn c hc
    interval_cases n
    simp only [natCharsAux, List.mem_singleton] at hc
    subst hc
    exact isDigit_digitChar (by omega)
  | succ fuel ih =>
    intro n hn c hc
    rw [natCharsAux] at hc
    by_cases h10 : n < 10
    · rw [if_pos h10] at hc
      simp only [List.mem_singleton] at hc
      subst hc
      exact isDigit_digitChar h10
    · rw [if_neg h10] at hc
      rcases List.mem_append.1 hc with h1 | h1
      · exact ih (n / 10) (by omega) c h1
      · simp only [List.mem_singleton] at h1
        subst h1
        exact isDigit_digitChar (by omega)

theorem natCharsAux_ne_nil (fuel n : Nat) : natCharsAux fuel n ≠ [] := by
  cases fuel with
  | zero => simp [natCharsAux]
  | succ fuel =>
    rw [natCharsAux]
    split
    · simp
    · simp

theorem natCharsAux_foldl :
    ∀ (fuel n : Nat), n ≤ fuel → ∀ a : Nat,
      (natCharsAux fuel n).foldl (fun a c => 10 * a + digToNat c) a =
        a * 10 ^ (natCharsAux fuel n).length + n := by
  intro fuel
  induction fuel with
  | zero =>
    intro n hn a
    interval_cases n
    simp [natCharsAux, digToNat_digitChar]
    ring
  | succ fuel ih =>
    intro n hn a
    rw [natCharsAux]
    by_cases h10 : n < 10
    · rw [if_pos h10]
      simp [digToNat_digitChar h10]
      ring
    · rw [if_neg h10]
      rw [List.foldl_append, List.length_append]
      rw [ih (n / 10) (by omega) a]
      simp only [List.foldl_cons, List.foldl_nil, List.length_singleton]
      rw [digToNat_digitChar (by omega)]
      have : 10 * (a * 10 ^ (natCharsAux fuel (n / 10)).length + n / 10) + n % 10 =
          a * (10 ^ (natCharsAux fuel (n / 10)).length * 10) + (10 * (n / 10) + n % 10) := by
        ring
      rw [this, pow_succ]
      omega

theorem natCharsAux_length_le :
    ∀ (k fuel n : Nat), n ≤ fuel → n < 10 ^ k → 1 ≤ k →
      (natCharsAux fuel n).length ≤ k := by
  intro k
  induction k with
  | zero => omega
  | succ k ih =>
    intro fuel n hfuel hk _
    cases fuel with
    | zero =>
      interval_cases n
      simp [natCharsAux]
    | succ fuel =>
      rw [natCharsAux]
      by_cases h10 : n < 10
      · rw [if_pos h10]
        simp
      · rw [if_neg h10]
        rw [List.length_append, List.length_singleton]
        have hdiv : n / 10 < 10 ^ k := by
          have h1 : n < 10 ^ (k + 1) := hk
          have h2 : 10 ^ (k + 1) = 10 ^ k * 10 := by rw [pow_succ]
          omega
        have hk1 : 1 ≤ k := by
          by_contra hc
          interval_cases k
          simp at hdiv
          omega
        have := ih fuel (n / 10) (by omega) hdiv hk1
        omega

theorem natChars_digits {n : Nat} : ∀ c ∈ natChars n, c.isDigit = true :=
  natCharsAux_digits n n le_rfl

theorem natChars_ne_nil (n : Nat) : natChars n ≠ [] := natCharsAux_ne_nil n n

theorem readDigits_natChars (n : Nat) : readDigits (natChars n) = some n := by
  have hall : (natChars n).takeWhile Char.isDigit = natChars n :=
    List.takeWhile_eq_self_iff.2 natChars_digits
  have hfold := natCharsAux_foldl n n le_rfl 0
  simp only [Nat.zero_mul, Nat.zero_add] at hfold
  rw [readDigits]
  simp only [hall]
  rw [if_neg (by simpa using natChars_ne_nil n), natChars, hfold]

theorem isCSpace_of_isDigit {c : Char} (h : c.isDigit = true) :
    isCSpace c = false := by
  by_contra hc
  have hsp : isCSpace c = true := by
    cases hic : isCSpace c
    · exact absurd hic hc
    · rfl
  simp only [isCSpace, decide_eq_true_eq] at hsp
  rcases hsp with h1 | h1 | h1 | h1 | h1 | h1 <;> subst h1 <;> simp at h

theorem ne_of_isDigit {c : Char} (h : c.isDigit = true) :
    c ≠ '-' ∧ c ≠ '+' ∧ c ≠ '\n' ∧ c ≠ ' ' := by
  refine ⟨?_, ?_, ?_, ?_⟩ <;> rintro rfl <;> simp at h

theorem sscanf_d_intChars (i : Int) : sscanf_d (intChars i) = some i := by
  rw [intChars]
  by_cases hneg : i < 0
  · rw [if_pos hneg]
    have h1 : List.dropWhile isCSpace ('-' :: natChars i.natAbs) =
        '-' :: natChars i.natAbs := by
      rw [List.dropWhile_cons]
      simp [isCSpace]
    have hval : -((i.natAbs : Nat) : Int) = i := by omega
    simp only [sscanf_d, h1, if_true]
    rw [readDigits_natChars]
    show some (-((i.natAbs : Nat) : Int)) = some i
    rw [hval]
  · rw [if_neg hneg]
    obtain ⟨c, cs, hc⟩ : ∃ c cs, natChars i.toNat = c :: cs := by
      cases h : natChars i.toNat with
      | nil => exact absurd h (natChars_ne_nil _)
      | cons c cs => exact ⟨c, cs, rfl⟩
    have hdig : c.isDigit = true := by
      apply natChars_digits
      rw [hc]
      exact List.mem_cons_self _ _
    obtain ⟨hm, hp, -, -⟩ := ne_of_isDigit hdig
    have h1 : List.dropWhile isCSpace (natChars i.toNat) = c :: cs := by
      rw [hc, List.dropWhile_cons, isCSpace_of_isDigit hdig]
      simp
    have hval : ((i.toNat : Nat) : Int) = i := by omega
    simp only [sscanf_d, h1]
    rw [if_neg hm, if_neg hp, ← hc, readDigits_natChars]
    show some ((i.toNat : Nat) : Int) = some i
    rw [hval]

theorem splitAtSpace_key (k v : List Char) (hk : ' ' ∉ k) :
    splitAtSpace (k ++ ' ' :: v) = some (k, v) := by
  induction k with
  | nil => simp [splitAtSpace]
  | cons c k ih =>
    have hc : c ≠ ' ' := fun h => hk (h ▸ List.mem_cons_self _ _)
    rw [List.cons_append, splitAtSpace, if_neg hc,
      ih (fun h => hk (List.mem_cons_of_mem _ h))]

theorem truncAtNl_append (v : List Char) (hv : '\n' ∉ v) :
    truncAtNl (v ++ ['\n']) = v := by
  induction v with
  | nil => rfl
  | cons c v ih =>
    have hc : c ≠ '\n' := fun h => hv (h ▸ List.mem_cons_self _ _)
    have ih' := ih (fun h => hv (List.mem_cons_of_mem _ h))
    simp only [truncAtNl] at ih' ⊢
    simp only [decide_not] at ih'
    simp [List.cons_append, List.takeWhile_cons, hc, ih']

theorem parse_string_kv (key v : List Char) (hk : ' ' ∉ key) (hv : '\n' ∉ v) :
    parse_string key (kvLine key v) = some v := by
  have hsplit := splitAtSpace_key key (v ++ ['\n']) hk
  simp only [parse_string, parse_next, kvLine, List.cons_append, List.append_assoc,
    hsplit, truncAtNl_append v hv, if_pos rfl, if_true]

theorem nl_not_mem_intChars (n : Int) : '\n' ∉ intChars n := by
  intro hmem
  rw [intChars] at hmem
  split at hmem
  · rcases List.mem_cons.1 hmem with h | h
    · exact absurd h (by decide)
    · have := natChars_digits _ h
      simp at this
  · have := natChars_digits _ hmem
    simp at this

theorem parse_integer_kv (key : List Char) (n : Int) (hk : ' ' ∉ key) :
    parse_integer key (kvLine key (intChars n)) = some n := by
  have hsplit := splitAtSpace_key key (intChars n ++ ['\n']) hk
  simp only [parse_integer, parse_next, kvLine, List.cons_append, List.append_assoc,
    hsplit, truncAtNl_append _ (nl_not_mem_intChars n), if_pos rfl, if_true]
  exact sscanf_d_intChars n

theorem fgetsAux_snd_le : ∀ (fuel : Nat) (s : List Char),
    (fgetsAux fuel s).2.length ≤ s.length := by
  intro fuel
  induction fuel with
  | zero =>
    intro s
    cases s <;> simp [fgetsAux]
  | succ fuel ih =>
    intro s
    cases s with
    | nil => simp [fgetsAux]
    | cons c rest =>
      rw [fgetsAux]
      split
      · simp
      · simpa using Nat.le_succ_of_le (ih rest)

theorem fgetsAux_cons_snd_le (fuel : Nat) (c : Char) (rest : List Char) :
    (fgetsAux (fuel + 1) (c :: rest)).2.length ≤ rest.length := by
  rw [fgetsAux]
  split
  · simp
  · simpa using fgetsAux_snd_le fuel rest

theorem fgets_cons_snd_le (c : Char) (rest : List Char) :
    (fgets (c :: rest)).2.length ≤ rest.length := by
  have h511 : (511 : Nat) = 510 + 1 := rfl
  rw [fgets, h511]
  exact fgetsAux_cons_snd_le 510 c rest

theorem fgetsAux_line : ∀ (l : List Char) (fuel : Nat) (r : List Char),
    '\n' ∉ l → l.length < fuel →
    fgetsAux fuel (l ++ '\n' :: r) = (l ++ ['\n'], r) := by
  intro l
  induction l with
  | nil =>
    intro fuel r _ hlen
    cases fuel with
    | zero => omega
    | succ fuel => simp [fgetsAux]
  | cons a l ih =>
    intro fuel r hnl hlen
    cases fuel with
    | zero => omega
    | succ fuel =>
      have ha : a ≠ '\n' := fun h => hnl (h ▸ List.mem_cons_self _ _)
      rw [List.cons_append, fgetsAux, if_neg ha,
        ih fuel r (fun h => hnl (List.mem_cons_of_mem _ h)) (by simpa using hlen)]
      simp

theorem fgets_line (l r : List Char) (hnl : '\n' ∉ l) (hlen : l.length ≤ 510) :
    fgets (l ++ '\n' :: r) = (l ++ ['\n'], r) :=
  fgetsAux_line l 511 r hnl (by omega)

theorem readLinesAux_eq : ∀ (n : Nat) (s : List Char) (fuel : Nat),
    s.length ≤ n → s.length ≤ fuel →
    readLinesAux fuel s = readLinesAux s.length s := by
  intro n
  induction n with
  | zero =>
    intro s fuel hn _
    have : s = [] := List.length_eq_zero.1 (Nat.le_zero.1 hn)
    subst this
    cases fuel <;> rfl
  | succ n ih =>
    intro s fuel hn hfuel
    cases s with
    | nil => cases fuel <;> rfl
    | cons c rest =>
      cases fuel with
      | zero => simp at hfuel
      | succ fuel =>
        simp only [List.length_cons] at hn hfuel
        rw [readLinesAux, show (c :: rest).length = rest.length + 1 from rfl,
          readLinesAux]
        have hsnd : (fgets (c :: rest)).2.length ≤ rest.length :=
          fgets_cons_snd_le c rest
        rw [ih (fgets (c :: rest)).2 fuel (by omega) (by omega),
          ih (fgets (c :: rest)).2 rest.length (by omega) (by omega)]

theorem readLines_line (l r : List Char) (hnl : '\n' ∉ l) (hlen : l.length ≤ 510) :
    readLines (l ++ '\n' :: r) = (l ++ ['\n']) :: readLines r := by
  obtain ⟨c, t, hs⟩ : ∃ c t, l ++ '\n' :: r = c :: t := by
    cases l with
    | nil => exact ⟨_, _, rfl⟩
    | cons a l => exact ⟨_, _, rfl⟩
  have hfgets : fgets (l ++ '\n' :: r) = (l ++ ['\n'], r) := fgets_line l r hnl hlen
  have htlen : r.length ≤ t.length := by
    have := congrArg List.length hs
    simp at this
    omega
  rw [readLines, hs, show (c :: t).length = t.length + 1 from rfl, readLinesAux,
    ← hs, hfgets]
  exact congrArg _ (readLinesAux_eq t.length r t.length htlen htlen)

theorem intChars_length_le (i : Int) (h : gintOk i) : (intChars i).length ≤ 11 := by
  obtain ⟨hlo, hhi⟩ := h
  have hpow : (10 : Nat) ^ 10 = 10000000000 := by norm_num
  rw [intChars]
  split
  · have hbound : i.natAbs < 10 ^ 10 := by omega
    have := natCharsAux_length_le 10 i.natAbs i.natAbs le_rfl hbound (by omega)
    simp only [List.length_cons, natChars]
    omega
  · have hbound : i.toNat < 10 ^ 10 := by omega
    have := natCharsAux_length_le 10 i.toNat i.toNat le_rfl hbound (by omega)
    simp only [natChars]
    omega

theorem readLines_kvLine (k v : List Char) (rest : List Char)
    (hk : '\n' ∉ k) (hv : '\n' ∉ v) (hlen : k.length + 1 + v.length ≤ 510) :
    readLines (kvLine k v ++ rest) = kvLine k v :: readLines rest := by
  have hshape : kvLine k v ++ rest = (k ++ ' ' :: v) ++ '\n' :: rest := by
    simp [kvLine]
  have hmem : '\n' ∉ k ++ ' ' :: v := by
    intro hmemb
    rcases List.mem_append.1 hmemb with h1 | h1
    · exact hk h1
    · rcases List.mem_cons.1 h1 with h2 | h2
      · exact absurd h2 (by decide)
      · exact hv h2
  have hlen2 : (k ++ ' ' :: v).length ≤ 510 := by
    simp only [List.length_append, List.length_cons]
    omega
  rw [hshape, readLines_line _ _ hmem hlen2]
  simp [kvLine]

theorem nl_not_mem_toList_item : '\n' ∉ "item".toList := by decide
theorem nl_not_mem_toList_pane : '\n' ∉ "pane".toList := by decide

theorem readLines_record (it : Item) (rest : List Char) (h : itemFileOk it) :
    readLines (item_record it ++ rest) = recLines it ++ readLines rest := by
  obtain ⟨hnm, hlen, hd, hx, hy, hw, hh⟩ := h
  have l1 := readLines_kvLine "item".toList it.name
  have l2 := readLines_kvLine "pane".toList (intChars it.dock)
  have l3 := readLines_kvLine "x".toList (intChars it.x)
  have l4 := readLines_kvLine "y".toList (intChars it.y)
  have l5 := readLines_kvLine "w".toList (intChars it.w)
  have l6 := readLines_kvLine "h".toList (intChars it.h)
  rw [item_record, recLines]
  simp only [List.append_assoc]
  rw [l1 _ (by decide) hnm (by simpa using by omega),
    l2 _ (by decide) (nl_not_mem_intChars _)
      (by have := intChars_length_le it.dock hd; simpa using by omega),
    l3 _ (by decide) (nl_not_mem_intChars _)
      (by have := intChars_length_le it.x hx; simpa using by omega),
    l4 _ (by decide) (nl_not_mem_intChars _)
      (by have := intChars_length_le it.y hy; simpa using by omega),
    l5 _ (by decide) (nl_not_mem_intChars _)
      (by have := intChars_length_le it.w hw; simpa using by omega),
    l6 _ (by decide) (nl_not_mem_intChars _)
      (by have := intChars_length_le it.h hh; simpa using by omega)]
  simp

theorem loadLoop_record (it : Item) (ls : List (List Char)) (h : itemFileOk it) :
    loadLoop (recLines it ++ ls) = detach it :: loadLoop ls := by
  have h1 : parse_string "item".toList (kvLine "item".toList it.name) = some it.name :=
    parse_string_kv _ _ (by decide) h.1
  have h2 := parse_integer_kv "pane".toList it.dock (by decide)
  have h3 := parse_integer_kv "x".toList it.x (by decide)
  have h4 := parse_integer_kv "y".toList it.y (by decide)
  have h5 := parse_integer_kv "w".toList it.w (by decide)
  have h6 := parse_integer_kv "h".toList it.h (by decide)
  simp only [recLines, List.cons_append, List.nil_append, loadLoop,
    h1, h2, h3, h4, h5, h6]
  rfl

theorem loadLoop_flatten (saved : List Item) (h : ∀ it ∈ saved, itemFileOk it) :
    loadLoop (readLines ((saved.map item_record).flatten)) = saved.map detach := by
  induction saved with
  | nil => rfl
  | cons it rest ih =>
    have hit : itemFileOk it := h it (List.mem_cons_self _ _)
    have hrest : ∀ i ∈ rest, itemFileOk i := fun i hi => h i (List.mem_cons_of_mem _ hi)
    simp only [List.map_cons, List.flatten_cons]
    rw [readLines_record it _ hit, loadLoop_record it _ hit, ih hrest]

theorem readLines_kvLine_nil (k v : List Char)
    (hk : '\n' ∉ k) (hv : '\n' ∉ v) (hlen : k.length + 1 + v.length ≤ 510) :
    readLines (kvLine k v) = [kvLine k v] := by
  have := readLines_kvLine k v [] hk hv hlen
  simpa using this

theorem loadLoop_truncRecord (it : Item) (k : Nat) (hk : k ≤ 4) (h : itemFileOk it) :
    loadLoop (readLines (truncRecord it k)) = [truncItem it k] := by
  obtain ⟨hnm, hlen, hd, hx, hy, hw, hh⟩ := h
  have h1 : parse_string "item".toList (kvLine "item".toList it.name) = some it.name :=
    parse_string_kv _ _ (by decide) hnm
  have h2 := parse_integer_kv "pane".toList it.dock (by decide)
  have h3 := parse_integer_kv "x".toList it.x (by decide)
  have h4 := parse_integer_kv "y".toList it.y (by decide)
  have h5 := parse_integer_kv "w".toList it.w (by decide)
  have hlen1 : "item".toList.length + 1 + it.name.length ≤ 510 := by
    simpa using by omega
  have hlen2 : "pane".toList.length + 1 + (intChars it.dock).length ≤ 510 := by
    have := intChars_length_le it.dock hd
    simpa using by omega
  have hlen3 : "x".toList.length + 1 + (intChars it.x).length ≤ 510 := by
    have := intChars_length_le it.x hx
    simpa using by omega
  have hlen4 : "y".toList.length + 1 + (intChars it.y).length ≤ 510 := by
    have := intChars_length_le it.y hy
    simpa using by omega
  have hlen5 : "w".toList.length + 1 + (intChars it.w).length ≤ 510 := by
    have := intChars_length_le it.w hw
    simpa using by omega
  interval_cases k
  · rw [truncRecord, recLines]
    simp only [List.take, List.flatten_cons, List.flatten_nil, List.append_nil]
    rw [readLines_kvLine_nil _ _ (by decide) hnm hlen1]
    simp only [loadLoop, h1,
      truncAtNl_append it.name hnm,
      truncAtNl_append _ (nl_not_mem_intChars it.dock),
      truncAtNl_append _ (nl_not_mem_intChars it.x),
      truncAtNl_append _ (nl_not_mem_intChars it.y),
      truncAtNl_append _ (nl_not_mem_intChars it.w),
      sscanf_d_intChars, List.append_eq]
    rfl
  · rw [truncRecord, recLines]
    simp only [List.take, List.flatten_cons, List.flatten_nil, List.append_nil]
    rw [readLines_kvLine _ _ _ (by decide) hnm hlen1,
      readLines_kvLine_nil _ _ (by decide) (nl_not_mem_intChars _) hlen2]
    simp only [loadLoop, h1, h2,
      truncAtNl_append it.name hnm,
      truncAtNl_append _ (nl_not_mem_intChars it.dock),
      truncAtNl_append _ (nl_not_mem_intChars it.x),
      truncAtNl_append _ (nl_not_mem_intChars it.y),
      truncAtNl_append _ (nl_not_mem_intChars it.w),
      sscanf_d_intChars, List.append_eq]
    rfl
  · rw [truncRecord, recLines]
    simp only [List.take, List.flatten_cons, List.flatten_nil, List.append_nil,
      ← List.append_assoc]
    rw [List.append_assoc,
      readLines_kvLine _ _ _ (by decide) hnm hlen1,
      readLines_kvLine _ _ _ (by decide) (nl_not_mem_intChars _) hlen2,
      readLines_kvLine_nil _ _ (by decide) (nl_not_mem_intChars _) hlen3]
    simp only [loadLoop, h1, h2, h3,
      truncAtNl_append it.name hnm,
      truncAtNl_append _ (nl_not_mem_intChars it.dock),
      truncAtNl_append _ (nl_not_mem_intChars it.x),
      truncAtNl_append _ (nl_not_mem_intChars it.y),
      truncAtNl_append _ (nl_not_mem_intChars it.w),
      sscanf_d_intChars, List.append_eq]
    rfl
  · rw [truncRecord, recLines]
    simp only [List.take, List.flatten_cons, List.flatten_nil, List.append_nil,
      ← List.append_assoc]
    rw [List.append_assoc, List.append_assoc,
      readLines_kvLine _ _ _ (by decide) hnm hlen1,
      readLines_kvLine _ _ _ (by decide) (nl_not_mem_intChars _) hlen2,
      readLines_kvLine _ _ _ (by decide) (nl_not_mem_intChars _) hlen3,
      readLines_kvLine_nil _ _ (by decide) (nl_not_mem_intChars _) hlen4]
    simp only [loadLoop, h1, h2, h3, h4,
      truncAtNl_append it.name hnm,
      truncAtNl_append _ (nl_not_mem_intChars it.dock),
      truncAtNl_append _ (nl_not_mem_intChars it.x),
      truncAtNl_append _ (nl_not_mem_intChars it.y),
      truncAtNl_append _ (nl_not_mem_intChars it.w),
      sscanf_d_intChars, List.append_eq]
    rfl
  · rw [truncRecord, recLines]
    simp only [List.take, List.flatten_cons, List.flatten_nil, List.append_nil,
      ← List.append_assoc]
    rw [List.append_assoc, List.append_assoc, List.append_assoc,
      readLines_kvLine _ _ _ (by decide) hnm hlen1,
      readLines_kvLine _ _ _ (by decide) (nl_not_mem_intChars _) hlen2,
      readLines_kvLine _ _ _ (by decide) (nl_not_mem_intChars _) hlen3,
      readLines_kvLine _ _ _ (by decide) (nl_not_mem_intChars _) hlen4,
      readLines_kvLine_nil _ _ (by decide) (nl_not_mem_intChars _) hlen5]
    simp only [loadLoop, h1, h2, h3, h4, h5,
      truncAtNl_append it.name hnm,
      truncAtNl_append _ (nl_not_mem_intChars it.dock),
      truncAtNl_append _ (nl_not_mem_intChars it.x),
      truncAtNl_append _ (nl_not_mem_intChars it.y),
      truncAtNl_append _ (nl_not_mem_intChars it.w),
      sscanf_d_intChars, List.append_eq]
    rfl

theorem loadLoop_flatten_trunc (saved : List Item) (extra : Item) (k : Nat)
    (hall : ∀ it ∈ saved, itemFileOk it) (hextra : itemFileOk extra) (hk : k ≤ 4) :
    loadLoop (readLines ((saved.map item_record).flatten ++ truncRecord extra k)) =
      saved.map detach ++ [truncItem extra k] := by
  induction saved with
  | nil =>
    simp only [List.map_nil, List.flatten_nil, List.nil_append]
    exact loadLoop_truncRecord extra k hk hextra
  | cons it rest ih =>
    have hit : itemFileOk it := hall it (List.mem_cons_self _ _)
    have hrest : ∀ i ∈ rest, itemFileOk i := fun i hi => hall i (List.mem_cons_of_mem _ hi)
    simp only [List.map_cons, List.flatten_cons, List.append_assoc]
    rw [readLines_record it _ hit, loadLoop_record it _ hit, ih hrest]
    simp

theorem find?_append_none {α : Type} (p : α → Bool) (l1 l2 : List α)
    (h : ∀ x ∈ l1, ¬ p x = true) : (l1 ++ l2).find? p = l2.find? p := by
  induction l1 with
  | nil => rfl
  | cons a l ih =>
    rw [List.cons_append, List.find?_cons_of_neg _ (h a (List.mem_cons_self _ _))]
    exact ih (fun x hx => h x (List.mem_cons_of_mem _ hx))

theorem setFirst_append_none (p : Item → Bool) (f : Item → Item)
    (l1 l2 : List Item) (h : ∀ x ∈ l1, ¬ p x = true) :
    setFirst p f (l1 ++ l2) = l1 ++ setFirst p f l2 := by
  induction l1 with
  | nil => rfl
  | cons a l ih =>
    rw [List.cons_append, setFirst, if_neg (h a (List.mem_cons_self _ _)),
      ih (fun x hx => h x (List.mem_cons_of_mem _ hx))]
    simp

end Layout

namespace Dock

theorem get_docked_list_inv (wlist : List Window) (w : Window) :
    GdlInv wlist [⟨w, 0, 0⟩] wlist w 0 0 (get_docked_list [] wlist w 0 0) := by
  rw [get_docked_list]
  simp only [List.isEmpty_nil, if_true]
  exact (gdlLoop wlist [⟨w, 0, 0⟩] wlist w 0 0 (fun _ hn => hn)).property

theorem get_docked_list_entry (wlist : List Window) (w : Window) :
    (⟨w, 0, 0⟩ : DockedWindow) ∈ get_docked_list [] wlist w 0 0 := by
  obtain ⟨t, ht⟩ := (get_docked_list_inv wlist w).1
  rw [ht]
  exact List.mem_append_left _ (List.mem_singleton.2 rfl)

theorem get_docked_list_nodup (wlist : List Window) (w : Window) :
    (idsOf (get_docked_list [] wlist w 0 0)).Nodup := by
  apply (get_docked_list_inv wlist w).2.2.1
  simp [idsOf]

theorem get_docked_list_source (wlist : List Window) (w : Window) :
    ∀ dw ∈ get_docked_list [] wlist w 0 0, dw.w = w ∨ dw.w ∈ wlist := by
  intro dw hdw
  rcases (get_docked_list_inv wlist w).2.1 dw hdw with h | h
  · left
    rcases List.mem_singleton.1 h with h1
    rw [h1]
  · exact Or.inr h

theorem get_docked_list_offsets (wlist : List Window) (w : Window) :
    ∀ dw ∈ get_docked_list [] wlist w 0 0,
      dw.offset_x = dw.w.x - w.x ∧ dw.offset_y = dw.w.y - w.y := by
  apply (get_docked_list_inv wlist w).2.2.2.2.2 w.x w.y (by omega) (by omega)
  intro dw hdw
  rcases List.mem_singleton.1 hdw with h1
  rw [h1]
  constructor <;> simp

theorem get_docked_list_closure (wlist : List Window) (w : Window) :
    ∀ dw ∈ get_docked_list [] wlist w 0 0, ∀ node ∈ wlist,
      is_dockedW dw.w node = true →
      node.id ∈ idsOf (get_docked_list [] wlist w 0 0) := by
  intro dw hdw node hnode hdock
  rcases (get_docked_list_inv wlist w).2.2.2.2.1 dw hdw with h | h
  · rcases List.mem_singleton.1 h with h1
    apply (get_docked_list_inv wlist w).2.2.2.1 node hnode
    have : dw.w = w := by rw [h1]
    rw [← this]
    exact hdock
  · exact h node hnode hdock

theorem snap_edge_far (cfg : DockConfig) (x y w h bx b_y bw bh : Int)
    (hfar : snapEdgeFar cfg.snap_distance x y w h bx b_y bw bh) :
    snap_edge cfg x y w h bx b_y bw bh = (x, y) := by
  obtain ⟨h1, h2⟩ := hfar
  simp only [snap_edge]
  rw [if_neg h1, if_neg (by simpa using h2)]

theorem snap_far (cfg : DockConfig) (x y w h bx b_y bw bh : Int)
    (hfar : snapFar cfg.snap_distance x y w h bx b_y bw bh) :
    snap cfg x y w h bx b_y bw bh = (x, y) := by
  simp only [snap]
  rw [snap_edge_far cfg x y w h bx b_y bw bh hfar.1]
  rw [show ((x, y) : Int × Int).2 = y from rfl, show ((x, y) : Int × Int).1 = x from rfl,
    snap_edge_far cfg y x h w b_y bx bh bw hfar.2]

theorem screenSnap_far (cfg : DockConfig) (nx ny nw nh : Int) (off : Int × Int)
    (h : screenFar cfg nx ny nw nh) :
    screenSnap cfg nx ny nw nh off = off := by
  obtain ⟨h1, h2, h3, h4⟩ := h
  simp only [screenSnap]
  rw [if_neg h1, if_neg h2, if_neg h3, if_neg h4]

theorem winSnapStep_zero (cfg : DockConfig) (dlist : List DockedWindow)
    (dw : DockedWindow) (x y : Int) (node : Window)
    (h : inDlist dlist node = false →
      snapFar cfg.snap_distance (dw.offset_x + x) (dw.offset_y + y)
        dw.w.w dw.w.h node.x node.y node.w node.h) :
    winSnapStep cfg dlist dw x y (0, 0) node = (0, 0) := by
  rw [winSnapStep]
  by_cases hmem : inDlist dlist node
  · rw [if_pos hmem]
  · rw [if_neg hmem]
    have harg1 : dw.offset_x + (0 : Int) + x = dw.offset_x + x := by ring
    have harg2 : dw.offset_y + (0 : Int) + y = dw.offset_y + y := by ring
    have hfar := h (by simpa using hmem)
    simp only
    rw [harg1, harg2, snap_far cfg _ _ _ _ _ _ _ _ hfar]
    simp

theorem foldl_winSnapStep_zero (cfg : DockConfig) (dlist : List DockedWindow)
    (dw : DockedWindow) (x y : Int) (wl : List Window)
    (h : ∀ node ∈ wl, inDlist dlist node = false →
      snapFar cfg.snap_distance (dw.offset_x + x) (dw.offset_y + y)
        dw.w.w dw.w.h node.x node.y node.w node.h) :
    wl.foldl (winSnapStep cfg dlist dw x y) (0, 0) = (0, 0) := by
  induction wl with
  | nil => rfl
  | cons node rest ih =>
    rw [List.foldl_cons,
      winSnapStep_zero cfg dlist dw x y node (h node (List.mem_cons_self _ _))]
    exact ih (fun nd hnd => h nd (List.mem_cons_of_mem _ hnd))

theorem foldl_dwStep_zero (cfg : DockConfig) (dlist : List DockedWindow)
    (wlist : List Window) (x y : Int) (dl : List DockedWindow)
    (h : ∀ dw ∈ dl,
      screenFar cfg (dw.offset_x + x) (dw.offset_y + y) dw.w.w dw.w.h ∧
      ∀ node ∈ wlist, inDlist dlist node = false →
        snapFar cfg.snap_distance (dw.offset_x + x) (dw.offset_y + y)
          dw.w.w dw.w.h node.x node.y node.w node.h) :
    dl.foldl (dwStep cfg dlist wlist x y) (0, 0) = (0, 0) := by
  induction dl with
  | nil => rfl
  | cons dw rest ih =>
    rw [List.foldl_cons]
    have hstep : dwStep cfg dlist wlist x y (0, 0) dw = (0, 0) := by
      rw [dwStep]
      simp only
      have harg1 : dw.offset_x + (0 : Int) + x = dw.offset_x + x := by ring
      have harg2 : dw.offset_y + (0 : Int) + y = dw.offset_y + y := by ring
      rw [harg1, harg2, screenSnap_far cfg _ _ _ _ _ (h dw (List.mem_cons_self _ _)).1]
      exact foldl_winSnapStep_zero cfg dlist dw x y wlist
        (h dw (List.mem_cons_self _ _)).2
    rw [hstep]
    exact ih (fun d hd => h d (List.mem_cons_of_mem _ hd))

/-- Symmetry of the raw edge predicate (helper shared by later
results). -/
theorem is_docked_comm (a_x a_y a_w a_h b_x b_y b_w b_h : Int) :
    is_docked a_x a_y a_w a_h b_x b_y b_w b_h =
    is_docked b_x b_y b_w b_h a_x a_y a_w a_h := by
  simp only [is_docked]
  split_ifs with h1 h2 h3 h4 <;> first | rfl | (exfalso; omega)

theorem is_dockedW_comm (a b : Window) : is_dockedW a b = is_dockedW b a :=
  is_docked_comm a.x a.y a.w a.h b.x b.y b.w b.h

end Dock

/-! ## Claims -/

namespace Dock

/-- C3: the edge-adjacency predicate is symmetric: for all rectangles
`A = (a_x, a_y, a_w, a_h)` and `B = (b_x, b_y, b_w, b_h)`,
`is_docked (A, B)` returns true iff `is_docked (B, A)` does. -/
theorem claim_C3 (a_x a_y a_w a_h b_x b_y b_w b_h : Int) :
    is_docked a_x a_y a_w a_h b_x b_y b_w b_h =
    is_docked b_x b_y b_w b_h a_x a_y a_w a_h :=
  is_docked_comm a_x a_y a_w a_h b_x b_y b_w b_h

/-- C5: for every finite candidate window list (cycles included — the
adjacency graph plays no role in the statement), `get_docked_list`
terminates (it is a total function here, witnessed by the
`missingIds`-measure termination proof of `gdlLoop`) and returns a list
in which no window appears more than once, membership being tracked by
window identity (`idsOf`). -/
theorem claim_C5 (wlist : List Window) (w : Window) :
    (idsOf (get_docked_list [] wlist w 0 0)).Nodup :=
  get_docked_list_nodup wlist w

/-- C6 counterexample: one captured window (width 95 on a 100-wide
screen, snap distance 10) at x = 3 has both its left edge (distance 3)
and its right edge (distance 2) within tolerance of the screen edges.
The two corrections accumulate to off_x = -1, and the final position
x = 2 aligns neither edge exactly (left edge at 2, right edge at 97),
refuting "the resulting correction makes the moved window's edge
coincide exactly with the edge snapped to". -/
theorem claim_C6_counterexample :
    calc_snap_offset ⟨true, 10, 100, 100⟩ [⟨⟨1, 3, 50, 95, 20⟩, 0, 0⟩] [] 3 50 = (-1, 0) ∧
    (3 : Int) + -1 ≠ 0 ∧ (3 : Int) + -1 + 95 ≠ 100 ∧
    (50 : Int) + 0 ≠ 0 ∧ (50 : Int) + 0 + 20 ≠ 100 := by decide

/-- C6 (amended): (1) `calc_snap_offset` returns (0, 0) whenever no
edge of any captured window is within the snap tolerance of a screen
edge or of an edge of a non-captured window; (2) when exactly one snap
condition is in range — here: a single captured window whose left edge
alone is within tolerance of the left screen edge, no other windows —
the correction aligns that edge exactly (distance zero).  (The original
claim fails when several conditions are simultaneously in range, since
the deltas accumulate; see the counterexample.) -/
theorem claim_C6_amended :
    (∀ (cfg : DockConfig) (dlist : List DockedWindow) (wlist : List Window) (x y : Int),
      (∀ dw ∈ dlist,
        screenFar cfg (dw.offset_x + x) (dw.offset_y + y) dw.w.w dw.w.h ∧
        ∀ node ∈ wlist, inDlist dlist node = false →
          snapFar cfg.snap_distance (dw.offset_x + x) (dw.offset_y + y)
            dw.w.w dw.w.h node.x node.y node.w node.h) →
      calc_snap_offset cfg dlist wlist x y = (0, 0)) ∧
    (∀ (cfg : DockConfig) (win : Window) (x y : Int),
      cfg.snap_windows = true →
      cAbs x < cfg.snap_distance →
      ¬ (cAbs y < cfg.snap_distance) →
      ¬ (cAbs (x + win.w - cfg.screenW) < cfg.snap_distance) →
      ¬ (cAbs (y + win.h - cfg.screenH) < cfg.snap_distance) →
      calc_snap_offset cfg [⟨win, 0, 0⟩] [] x y = (-x, 0) ∧
      x + (calc_snap_offset cfg [⟨win, 0, 0⟩] [] x y).1 = 0) := by
  constructor
  · intro cfg dlist wlist x y h
    rw [calc_snap_offset]
    by_cases hsw : cfg.snap_windows
    · rw [if_neg (by simp [hsw])]
      exact foldl_dwStep_zero cfg dlist wlist x y dlist h
    · rw [if_pos (by simp [hsw])]
  · intro cfg win x y hsw h1 h2 h3 h4
    have hres : calc_snap_offset cfg [⟨win, 0, 0⟩] [] x y = (-x, 0) := by
      rw [calc_snap_offset, if_neg (by simp [hsw]), List.foldl_cons, List.foldl_nil,
        dwStep]
      simp only [List.foldl_nil]
      have e1 : (⟨win, 0, 0⟩ : DockedWindow).offset_x + ((0, 0) : Int × Int).1 + x = x := by
        simp
      have e2 : (⟨win, 0, 0⟩ : DockedWindow).offset_y + ((0, 0) : Int × Int).2 + y = y := by
        simp
      rw [e1, e2, screenSnap]
      simp only
      rw [if_pos h1, if_neg h2, if_neg h3, if_neg h4]
      simp
    exact ⟨hres, by rw [hres]; simp⟩

/-- C6 witness for the amended theorem: both parts applied at concrete
inputs (a far-away window moves freely; a window 3 px from the left
screen edge is shifted by exactly -3). -/
theorem claim_C6_witness :
    calc_snap_offset ⟨true, 10, 1000, 1000⟩ [⟨⟨1, 500, 500, 50, 50⟩, 0, 0⟩] [] 500 500 = (0, 0) ∧
    (calc_snap_offset ⟨true, 10, 1000, 1000⟩ [⟨⟨2, 0, 0, 50, 50⟩, 0, 0⟩] [] 3 500 = (-3, 0) ∧
      (3 : Int) + (calc_snap_offset ⟨true, 10, 1000, 1000⟩ [⟨⟨2, 0, 0, 50, 50⟩, 0, 0⟩] [] 3 500).1 = 0) :=
  ⟨claim_C6_amended.1 ⟨true, 10, 1000, 1000⟩ [⟨⟨1, 500, 500, 50, 50⟩, 0, 0⟩] [] 500 500
      (by decide),
   claim_C6_amended.2 ⟨true, 10, 1000, 1000⟩ ⟨2, 0, 0, 50, 50⟩ 3 500
      (by decide) (by decide) (by decide) (by decide) (by decide)⟩

/-- C7: when a drag is active, `dock_move_motion` applies the same
corrected base position (pointer minus grab offset plus snap
correction) to every window in the captured set: the issued move list
is exactly "base plus capture-time offset" per window, and all pairwise
relative offsets within the captured set are preserved. -/
theorem claim_C7 (cfg : DockConfig) (st : DragState) (x_root y_root : Int)
    (h : st.is_moving = true) :
    dock_move_motion cfg st x_root y_root =
      st.docked_list.map (fun dw =>
        (dw.w,
         x_root - st.move_offset_x +
           (calc_snap_offset cfg st.docked_list st.window_list
             (x_root - st.move_offset_x) (y_root - st.move_offset_y)).1 + dw.offset_x,
         y_root - st.move_offset_y +
           (calc_snap_offset cfg st.docked_list st.window_list
             (x_root - st.move_offset_x) (y_root - st.move_offset_y)).2 + dw.offset_y)) ∧
    (∀ dw1 ∈ st.docked_list, ∀ dw2 ∈ st.docked_list,
      ∃ t1 ∈ dock_move_motion cfg st x_root y_root,
      ∃ t2 ∈ dock_move_motion cfg st x_root y_root,
        t1.1 = dw1.w ∧ t2.1 = dw2.w ∧
        t1.2.1 - t2.2.1 = dw1.offset_x - dw2.offset_x ∧
        t1.2.2 - t2.2.2 = dw1.offset_y - dw2.offset_y) := by
  have hmain : dock_move_motion cfg st x_root y_root =
      st.docked_list.map (fun dw =>
        (dw.w,
         x_root - st.move_offset_x +
           (calc_snap_offset cfg st.docked_list st.window_list
             (x_root - st.move_offset_x) (y_root - st.move_offset_y)).1 + dw.offset_x,
         y_root - st.move_offset_y +
           (calc_snap_offset cfg st.docked_list st.window_list
             (x_root - st.move_offset_x) (y_root - st.move_offset_y)).2 + dw.offset_y)) := by
    rw [dock_move_motion, if_neg (by simp [h]), docked_list_move]
  refine ⟨hmain, ?_⟩
  intro dw1 h1 dw2 h2
  refine ⟨(dw1.w,
      x_root - st.move_offset_x +
        (calc_snap_offset cfg st.docked_list st.window_list
          (x_root - st.move_offset_x) (y_root - st.move_offset_y)).1 + dw1.offset_x,
      y_root - st.move_offset_y +
        (calc_snap_offset cfg st.docked_list st.window_list
          (x_root - st.move_offset_x) (y_root - st.move_offset_y)).2 + dw1.offset_y),
    ?_,
    (dw2.w,
      x_root - st.move_offset_x +
        (calc_snap_offset cfg st.docked_list st.window_list
          (x_root - st.move_offset_x) (y_root - st.move_offset_y)).1 + dw2.offset_x,
      y_root - st.move_offset_y +
        (calc_snap_offset cfg st.docked_list st.window_list
          (x_root - st.move_offset_x) (y_root - st.move_offset_y)).2 + dw2.offset_y),
    ?_, rfl, rfl, by ring, by ring⟩
  · rw [hmain]
    exact List.mem_map_of_mem _ h1
  · rw [hmain]
    exact List.mem_map_of_mem _ h2

/-- C7 witness: a concrete two-window drag state with the marker set. -/
theorem claim_C7_witness :
    dock_move_motion ⟨false, 10, 100, 100⟩
        ⟨false, true, 3, 4, [⟨⟨1, 0, 0, 10, 10⟩, 0, 0⟩, ⟨⟨2, 10, 0, 10, 10⟩, 10, 0⟩], []⟩
        50 60 =
      ([⟨⟨1, 0, 0, 10, 10⟩, 0, 0⟩, ⟨⟨2, 10, 0, 10, 10⟩, 10, 0⟩] : List DockedWindow).map
        (fun dw => (dw.w, 50 - 3 +
          (calc_snap_offset ⟨false, 10, 100, 100⟩
            [⟨⟨1, 0, 0, 10, 10⟩, 0, 0⟩, ⟨⟨2, 10, 0, 10, 10⟩, 10, 0⟩] [] (50 - 3) (60 - 4)).1 +
          dw.offset_x,
          60 - 4 +
          (calc_snap_offset ⟨false, 10, 100, 100⟩
            [⟨⟨1, 0, 0, 10, 10⟩, 0, 0⟩, ⟨⟨2, 10, 0, 10, 10⟩, 10, 0⟩] [] (50 - 3) (60 - 4)).2 +
          dw.offset_y)) :=
  (claim_C7 ⟨false, 10, 100, 100⟩
    ⟨false, true, 3, 4, [⟨⟨1, 0, 0, 10, 10⟩, 0, 0⟩, ⟨⟨2, 10, 0, 10, 10⟩, 10, 0⟩], []⟩
    50 60 rfl).1

/-- C8 counterexample: `dock_move_press` does not consult the
`is_moving` marker.  A window state with the marker already set and a
captured two-window docked list is overwritten by a new press: the
grab offsets and the docked list are replaced even though
`dock_is_moving` reported true. -/
theorem claim_C8_counterexample :
    dock_is_moving ⟨false, true, 99, 98,
        [⟨⟨1, 0, 0, 10, 10⟩, 0, 0⟩, ⟨⟨2, 10, 0, 10, 10⟩, 10, 0⟩], []⟩ = true ∧
    (dock_move_press ⟨false, true, 99, 98,
        [⟨⟨1, 0, 0, 10, 10⟩, 0, 0⟩, ⟨⟨2, 10, 0, 10, 10⟩, 10, 0⟩], []⟩
        [] ⟨3, 50, 50, 5, 5⟩ 1 2 false).docked_list = [⟨⟨3, 50, 50, 5, 5⟩, 0, 0⟩] ∧
    (dock_move_press ⟨false, true, 99, 98,
        [⟨⟨1, 0, 0, 10, 10⟩, 0, 0⟩, ⟨⟨2, 10, 0, 10, 10⟩, 10, 0⟩], []⟩
        [] ⟨3, 50, 50, 5, 5⟩ 1 2 false).docked_list ≠
      [⟨⟨1, 0, 0, 10, 10⟩, 0, 0⟩, ⟨⟨2, 10, 0, 10, 10⟩, 10, 0⟩] ∧
    (dock_move_press ⟨false, true, 99, 98,
        [⟨⟨1, 0, 0, 10, 10⟩, 0, 0⟩, ⟨⟨2, 10, 0, 10, 10⟩, 10, 0⟩], []⟩
        [] ⟨3, 50, 50, 5, 5⟩ 1 2 false).move_offset_x ≠ 99 := by decide

/-- C8 (amended): `dock_move_press` never checks the per-window
`is_moving` marker: unless window-manager decorations are shown (its
only early return), it begins a new drag unconditionally — the result
does not depend on the previous marker value, the marker ends up set,
and a fresh docked list is captured.  `dock_is_moving` merely reports
the marker (and `dock_move_motion`, not `dock_move_press`, is the
function that refuses to act without it). -/
theorem claim_C8_amended (st : DragState) (wl : List Window) (w : Window)
    (ex ey : Int) (ml : Bool) (h : st.show_wm_decorations = false) :
    dock_move_press { st with is_moving := true } wl w ex ey ml =
      dock_move_press { st with is_moving := false } wl w ex ey ml ∧
    (dock_move_press st wl w ex ey ml).is_moving = true ∧
    (dock_move_press st wl w ex ey ml).docked_list =
      (if ml then get_docked_list [] wl w 0 0 else [⟨w, 0, 0⟩]) ∧
    dock_is_moving st = st.is_moving := by
  refine ⟨?_, ?_, ?_, rfl⟩ <;> simp [dock_move_press, dock_is_moving, h]

/-- C8 witness for the amended theorem at a concrete state (with
`move_list = false`, so the captured list is the grabbed window
alone). -/
theorem claim_C8_amended_witness :
    dock_move_press ⟨false, true, 7, 8, [], []⟩ [] ⟨4, 1, 1, 2, 2⟩ 5 6 false =
      dock_move_press ⟨false, false, 7, 8, [], []⟩ [] ⟨4, 1, 1, 2, 2⟩ 5 6 false ∧
    (dock_move_press ⟨false, false, 7, 8, [], []⟩ [] ⟨4, 1, 1, 2, 2⟩ 5 6 false).is_moving = true ∧
    (dock_move_press ⟨false, false, 7, 8, [], []⟩ [] ⟨4, 1, 1, 2, 2⟩ 5 6 false).docked_list =
      (if false then get_docked_list [] [] ⟨4, 1, 1, 2, 2⟩ 0 0 else [⟨⟨4, 1, 1, 2, 2⟩, 0, 0⟩]) ∧
    dock_is_moving ⟨false, false, 7, 8, [], []⟩ = false :=
  claim_C8_amended ⟨false, false, 7, 8, [], []⟩ [] ⟨4, 1, 1, 2, 2⟩ 5 6 false rfl

end Dock

namespace Layout

/-- C1 counterexample: a file whose single record lacks the final `h`
line.  The claim demands that the load contain exactly the complete
records (none here); the code instead keeps a partially-initialized
`Item` for the truncated record, because `item_new` runs as soon as
the `item` line parses. -/
theorem claim_C1_counterexample :
    layout_load ("item a\npane 0\nx 1\ny 2\nw 3\n".toList) =
      [{ item_new "a".toList with dock := 0, x := 1, y := 2, w := 3 }] ∧
    layout_load ("item a\npane 0\nx 1\ny 2\nw 3\n".toList) ≠ [] := by decide

/-- C1 (amended): loading a persisted file whose last record is
truncated (missing one of the five integer fields) yields the Items of
all complete records in file order, followed by one
partially-initialized Item for the truncated trailing record whenever
its `item` line is present: the fields before the break are parsed, the
rest keep the `item_new` defaults (`dock = x = y = -1`, `w = h = 0`).
No record after the break is read.  (The original claim said no Item at
all is created for the incomplete record.) -/
theorem claim_C1_amended (g : GuiOracle) (its : List Item) (extra : Item) (k : Nat)
    (hall : ∀ it ∈ (layout_save g its).1, itemFileOk it)
    (hextra : itemFileOk extra) (hk : k ≤ 4) :
    layout_load ((layout_save g its).2 ++ truncRecord extra k) =
      (layout_save g its).1.map detach ++ [truncItem extra k] := by
  simp only [layout_save] at hall ⊢
  rw [layout_load]
  exact loadLoop_flatten_trunc (its.map (item_save_size g)) extra k hall hextra hk

/-- C1 witness: one complete record followed by a record missing only
its `h` line. -/
theorem claim_C1_amended_witness :
    layout_load ((layout_save ⟨fun _ => 7, fun _ => 8, fun _ => 1, fun _ => 2⟩
        [{ item_new "a".toList with dock := 2, x := 3, y := 4, w := 5, h := 6 }]).2 ++
        truncRecord { item_new "b".toList with dock := 0, x := 11, y := 12, w := 13, h := 14 } 4) =
      (layout_save ⟨fun _ => 7, fun _ => 8, fun _ => 1, fun _ => 2⟩
        [{ item_new "a".toList with dock := 2, x := 3, y := 4, w := 5, h := 6 }]).1.map detach ++
      [truncItem { item_new "b".toList with dock := 0, x := 11, y := 12, w := 13, h := 14 } 4] :=
  claim_C1_amended ⟨fun _ => 7, fun _ => 8, fun _ => 1, fun _ => 2⟩
    [{ item_new "a".toList with dock := 2, x := 3, y := 4, w := 5, h := 6 }]
    { item_new "b".toList with dock := 0, x := 11, y := 12, w := 13, h := 14 } 4
    (by decide) (by decide) (by decide)

/-- C2: the save/load round trip.  `layout_save` first refreshes the
geometry of attached items in place (`item_save_size`); the file it
writes, read back by `layout_load` into an empty item list, yields
Items with identical name, dock bay, x, y, w and h, in the same order
(the loaded items merely carry no widget/window, which `detach`
expresses); saving an empty layout and loading it yields zero Items as
the special case `its = []`.  The hypothesis is the well-formedness the
engine guarantees: names of at most 256 chars without newline
(the `layout_add` guard) and `gint`-ranged numeric fields. -/
theorem claim_C2 (g : GuiOracle) (its : List Item)
    (h : ∀ it ∈ (layout_save g its).1, itemFileOk it) :
    layout_load (layout_save g its).2 = (layout_save g its).1.map detach := by
  simp only [layout_save] at h ⊢
  rw [layout_load]
  exact loadLoop_flatten (its.map (item_save_size g)) h

/-- C2 witness: a two-item layout (one floating attached item whose
geometry is refreshed from the oracle, one detached placeholder), plus
the empty layout. -/
theorem claim_C2_witness :
    layout_load (layout_save ⟨fun _ => 7, fun _ => 8, fun _ => 1, fun _ => 2⟩
        [{ item_new "a b".toList with widget := some 5, window := true, dock := -1 },
         { item_new "c".toList with dock := 3, x := 9, y := 10, w := 11, h := 12 }]).2 =
      (layout_save ⟨fun _ => 7, fun _ => 8, fun _ => 1, fun _ => 2⟩
        [{ item_new "a b".toList with widget := some 5, window := true, dock := -1 },
         { item_new "c".toList with dock := 3, x := 9, y := 10, w := 11, h := 12 }]).1.map detach ∧
    layout_load (layout_save ⟨fun _ => 7, fun _ => 8, fun _ => 1, fun _ => 2⟩ []).2 = [] :=
  ⟨claim_C2 ⟨fun _ => 7, fun _ => 8, fun _ => 1, fun _ => 2⟩
      [{ item_new "a b".toList with widget := some 5, window := true, dock := -1 },
       { item_new "c".toList with dock := 3, x := 9, y := 10, w := 11, h := 12 }]
      (by decide),
   claim_C2 ⟨fun _ => 7, fun _ => 8, fun _ => 1, fun _ => 2⟩ [] (by decide)⟩

theorem item_save_size_some (g : GuiOracle) (it : Item) (wid : Nat)
    (h : it.widget = some wid) :
    item_save_size g it =
      if it.dock < 0 then
        { it with w := g.allocW wid, h := g.allocH wid, x := g.winX wid, y := g.winY wid }
      else { it with w := g.allocW wid, h := g.allocH wid } := by
  rw [item_save_size, h]

theorem item_save_size_name (g : GuiOracle) (it : Item) :
    (item_save_size g it).name = it.name := by
  cases h : it.widget with
  | none => rw [item_save_size, h]
  | some wid =>
    rw [item_save_size_some g it wid h]
    split <;> rfl

theorem item_save_size_dock (g : GuiOracle) (it : Item) :
    (item_save_size g it).dock = it.dock := by
  cases h : it.widget with
  | none => rw [item_save_size, h]
  | some wid =>
    rw [item_save_size_some g it wid h]
    split <;> rfl

/-- C9: `layout_add (name)`, then `layout_remove` on its widget, then
`layout_add` again with the same name restores the panel to the same
bay and the same sequence position (the items list keeps its shape
`pre ++ _ :: post`), with the geometry that `item_save_size` saved into
the surviving placeholder at removal time: `w`/`h` from the vbox
allocation, and `x`/`y` from the window position when floating.  The
hypotheses state the engine's invariants: the item is attached under
`wid`, its name is valid and unique up to its position, its widget id
unique up to its position, and its bay index in range. -/
theorem claim_C9 (g : GuiOracle) (pre post : List Item) (it : Item) (wid wid' : Nat)
    (hname_len : it.name.length ≤ 256) (hname_nl : '\n' ∉ it.name)
    (hpre_n : ∀ q ∈ pre, q.name ≠ it.name)
    (hpre_w : ∀ q ∈ pre, q.widget ≠ some wid)
    (hw : it.widget = some wid) (hdock : it.dock < 4) :
    layout_add (layout_remove g (pre ++ it :: post) wid) wid' it.name =
      pre ++ item_add_m
        { item_save_size g it with widget := some wid', window := false } :: post ∧
    (item_add_m { item_save_size g it with widget := some wid', window := false }).name
      = it.name ∧
    (item_add_m { item_save_size g it with widget := some wid', window := false }).dock
      = it.dock ∧
    (item_add_m { item_save_size g it with widget := some wid', window := false }).w
      = g.allocW wid ∧
    (item_add_m { item_save_size g it with widget := some wid', window := false }).h
      = g.allocH wid ∧
    (it.dock < 0 →
      (item_add_m { item_save_size g it with widget := some wid', window := false }).x
        = g.winX wid ∧
      (item_add_m { item_save_size g it with widget := some wid', window := false }).y
        = g.winY wid ∧
      (item_add_m { item_save_size g it with widget := some wid', window := false }).window
        = true) ∧
    (0 ≤ it.dock →
      (item_add_m { item_save_size g it with widget := some wid', window := false }).x
        = it.x ∧
      (item_add_m { item_save_size g it with widget := some wid', window := false }).y
        = it.y) := by
  have hremove : layout_remove g (pre ++ it :: post) wid =
      pre ++ { item_save_size g it with widget := none, window := false } :: post := by
    rw [layout_remove]
    have hfind : (pre ++ it :: post).find? (fun q => q.widget = some wid) = some it := by
      rw [find?_append_none _ pre _ (fun q hq => by simpa using hpre_w q hq),
        List.find?_cons_of_pos _ (by simpa using hw)]
    rw [hfind]
    show setFirst _ _ _ = _
    rw [setFirst_append_none _ _ pre _ (fun q hq => by simpa using hpre_w q hq),
      setFirst, if_pos (by simpa using hw)]
  have hname_r : ({ item_save_size g it with
      widget := none, window := false } : Item).name = it.name := item_save_size_name g it
  have hdock_r : ({ item_save_size g it with
      widget := none, window := false } : Item).dock = it.dock := item_save_size_dock g it
  have hadd : layout_add
      (pre ++ { item_save_size g it with widget := none, window := false } :: post)
      wid' it.name =
      pre ++ item_add_m
        { item_save_size g it with widget := some wid', window := false } :: post := by
    rw [layout_add, if_neg (by
      intro hcon
      exact hcon ⟨hname_len, hname_nl⟩)]
    have hfind : (pre ++ { item_save_size g it with
        widget := none, window := false } :: post).find? (fun q => q.name = it.name) =
        some { item_save_size g it with widget := none, window := false } := by
      rw [find?_append_none _ pre _ (fun q hq => by simpa using hpre_n q hq),
        List.find?_cons_of_pos _ (by simpa using hname_r)]
    rw [hfind]
    show (if _ then _ else _) = _
    rw [if_neg (by simp)]
    rw [setFirst_append_none _ _ pre _ (fun q hq => by simpa using hpre_n q hq),
      setFirst, if_pos (by simpa using hname_r)]
    have hd4 : ¬ (({ item_save_size g it with
        widget := none, window := false } : Item).dock ≥ 4) := by
      rw [hdock_r]
      omega
    rw [if_neg hd4]
  refine ⟨hremove ▸ hadd, ?_, ?_, ?_, ?_, ?_, ?_⟩ <;>
    rw [item_add_m] <;>
    rcases Int.lt_or_le it.dock 0 with hd | hd
  · rw [if_pos (by simpa [item_save_size_dock] using hd), item_save_size_some g it wid hw,
      if_pos hd]
  · rw [if_neg (by simpa [item_save_size_dock] using hd), item_save_size_some g it wid hw,
      if_neg (by omega)]
  · rw [if_pos (by simpa [item_save_size_dock] using hd), item_save_size_some g it wid hw,
      if_pos hd]
  · rw [if_neg (by simpa [item_save_size_dock] using hd), item_save_size_some g it wid hw,
      if_neg (by omega)]
  · rw [if_pos (by simpa [item_save_size_dock] using hd), item_save_size_some g it wid hw,
      if_pos hd]
  · rw [if_neg (by simpa [item_save_size_dock] using hd), item_save_size_some g it wid hw,
      if_neg (by omega)]
  · rw [if_pos (by simpa [item_save_size_dock] using hd), item_save_size_some g it wid hw,
      if_pos hd]
  · rw [if_neg (by simpa [item_save_size_dock] using hd), item_save_size_some g it wid hw,
      if_neg (by omega)]
  · intro h0
    rw [if_pos (by simpa [item_save_size_dock] using hd), item_save_size_some g it wid hw,
      if_pos hd]
    exact ⟨rfl, rfl, rfl⟩
  · intro h0
    omega
  · intro h0
    omega
  · intro h0
    rw [if_neg (by simpa [item_save_size_dock] using hd), item_save_size_some g it wid hw,
      if_neg (by omega)]
    exact ⟨rfl, rfl⟩

/-- C9 witness: a floating item "a" (widget 5) between neighbours "p"
and "q" is removed and re-added as widget 9; it reappears at the same
position with the oracle-saved geometry. -/
theorem claim_C9_witness :
    layout_add (layout_remove ⟨fun _ => 31, fun _ => 32, fun _ => 33, fun _ => 34⟩
        ([{ item_new "p".toList with dock := 0 }] ++
          { item_new "a".toList with widget := some 5, window := true, dock := -1 } ::
          [item_new "q".toList]) 5) 9
      ({ item_new "a".toList with widget := some 5, window := true, dock := -1 } : Item).name =
      [{ item_new "p".toList with dock := 0 }] ++
        item_add_m { item_save_size ⟨fun _ => 31, fun _ => 32, fun _ => 33, fun _ => 34⟩
          { item_new "a".toList with widget := some 5, window := true, dock := -1 } with
          widget := some 9, window := false } :: [item_new "q".toList] :=
  (claim_C9 ⟨fun _ => 31, fun _ => 32, fun _ => 33, fun _ => 34⟩
    [{ item_new "p".toList with dock := 0 }] [item_new "q".toList]
    { item_new "a".toList with widget := some 5, window := true, dock := -1 } 5 9
    (by decide) (by decide) (by decide) (by decide) (by decide) (by decide)).1

/-- C10 (implicit): `layout_add` on a placeholder whose persisted
`pane` value is out of the valid bay range 0–3 (as a corrupted layout
file can produce) resets the value to -1 and attaches the panel as a
floating window (`item_add_m` takes its `dock < 0` branch, which never
indexes the `docks` array), completing normally rather than hitting a
guard. -/
theorem claim_C10 (pre post : List Item) (ph : Item) (wid : Nat)
    (hname_len : ph.name.length ≤ 256) (hname_nl : '\n' ∉ ph.name)
    (hpre : ∀ q ∈ pre, q.name ≠ ph.name)
    (hdet : ph.widget = none) (hwin : ph.window = false) (hdock : ph.dock ≥ 4) :
    layout_add (pre ++ ph :: post) wid ph.name =
      pre ++ { ph with dock := -1, widget := some wid, window := true } :: post := by
  rw [layout_add, if_neg (fun hcon => hcon ⟨hname_len, hname_nl⟩)]
  have hfind : (pre ++ ph :: post).find? (fun q => q.name = ph.name) = some ph := by
    rw [find?_append_none _ pre _ (fun q hq => by simpa using hpre q hq),
      List.find?_cons_of_pos _ (by simp)]
  rw [hfind]
  show (if _ then _ else _) = _
  rw [if_neg (by simp [hdet, hwin])]
  rw [setFirst_append_none _ _ pre _ (fun q hq => by simpa using hpre q hq),
    setFirst, if_pos (by simp)]
  rw [if_pos hdock, item_add_m, if_pos (show _ from by norm_num : (-1 : Int) < 0)]

/-- C10 witness: a placeholder with persisted pane value 7. -/
theorem claim_C10_witness :
    layout_add ([item_new "p".toList] ++
        { item_new "bad".toList with dock := 7 } :: [item_new "q".toList]) 3
      ({ item_new "bad".toList with dock := 7 } : Item).name =
      [item_new "p".toList] ++
        { ({ item_new "bad".toList with dock := 7 } : Item) with
          dock := -1, widget := some 3, window := true } :: [item_new "q".toList] :=
  claim_C10 [item_new "p".toList] [item_new "q".toList]
    { item_new "bad".toList with dock := 7 } 3
    (by decide) (by decide) (by decide) (by decide) (by decide) (by decide)

end Layout

namespace Dock

theorem window_eq_of_id (wlist : List Window) (hids : (wlist.map Window.id).Nodup)
    {a b : Window} (ha : a ∈ wlist) (hb : b ∈ wlist) (h : a.id = b.id) : a = b :=
  List.inj_on_of_nodup_map hids ha hb h

/-- From an id in the captured list to an actual entry carrying it. -/
theorem exists_of_mem_idsOf {r : List DockedWindow} {i : Nat}
    (h : i ∈ idsOf r) : ∃ dw ∈ r, dw.w.id = i := by
  rw [idsOf] at h
  obtain ⟨dw, hdw, hid⟩ := List.mem_map.1 h
  exact ⟨dw, hdw, hid⟩

/-- One flood-fill propagation step: if some captured entry references
window `a` and candidate `b` is docked to `a`, then some captured entry
references `b` itself (assuming candidate ids are distinct and the
grabbed window is among the candidates). -/
theorem gdl_step (wlist : List Window) (grabbed : Window)
    (hids : (wlist.map Window.id).Nodup) (hgr : grabbed ∈ wlist)
    {a b : Window} (hb : b ∈ wlist)
    (hdock : is_dockedW a b = true)
    (hmem : ∃ dw ∈ get_docked_list [] wlist grabbed 0 0, dw.w = a) :
    ∃ dw ∈ get_docked_list [] wlist grabbed 0 0, dw.w = b := by
  obtain ⟨dw, hdw, hwa⟩ := hmem
  have hid : b.id ∈ idsOf (get_docked_list [] wlist grabbed 0 0) := by
    apply get_docked_list_closure wlist grabbed dw hdw b hb
    rw [hwa]
    exact hdock
  obtain ⟨dw', hdw', hid'⟩ := exists_of_mem_idsOf hid
  refine ⟨dw', hdw', ?_⟩
  rcases get_docked_list_source wlist grabbed dw' hdw' with hsrc | hsrc
  · exact window_eq_of_id wlist hids (hsrc ▸ hgr) hb (hsrc ▸ hid')
  · exact window_eq_of_id wlist hids hsrc hb hid'

/-- C4: for every chain of windows in which each is edge-docked to the
next, `get_docked_list` started from any window of the chain (all chain
windows drawn from the candidate list, candidate ids distinct) returns
a list containing every window of the chain, each annotated with its
position offset relative to the grabbed window. -/
theorem claim_C4 (wlist ws : List Window) (j : Nat) (hj : j < ws.length)
    (hsub : ∀ n ∈ ws, n ∈ wlist)
    (hids : (wlist.map Window.id).Nodup)
    (hchain : ∀ i, (h2 : i + 1 < ws.length) →
      is_dockedW (ws.get ⟨i, Nat.lt_of_succ_lt h2⟩) (ws.get ⟨i + 1, h2⟩) = true) :
    ∀ i, (hi : i < ws.length) →
      ∃ dw ∈ get_docked_list [] wlist (ws.get ⟨j, hj⟩) 0 0,
        dw.w = ws.get ⟨i, hi⟩ ∧
        dw.offset_x = (ws.get ⟨i, hi⟩).x - (ws.get ⟨j, hj⟩).x ∧
        dw.offset_y = (ws.get ⟨i, hi⟩).y - (ws.get ⟨j, hj⟩).y := by
  have hgr : ws.get ⟨j, hj⟩ ∈ wlist := hsub _ (ws.get_mem _ _)
  have hbase : ∃ dw ∈ get_docked_list [] wlist (ws.get ⟨j, hj⟩) 0 0,
      dw.w = ws.get ⟨j, hj⟩ :=
    ⟨⟨ws.get ⟨j, hj⟩, 0, 0⟩, get_docked_list_entry _ _, rfl⟩
  have hup : ∀ d, ∀ hd : j + d < ws.length,
      ∃ dw ∈ get_docked_list [] wlist (ws.get ⟨j, hj⟩) 0 0,
        dw.w = ws.get ⟨j + d, hd⟩ := by
    intro d
    induction d with
    | zero =>
      intro hd
      have : (⟨j + 0, hd⟩ : Fin ws.length) = ⟨j, hj⟩ := Fin.ext (Nat.add_zero j)
      rw [this]
      exact hbase
    | succ d ih =>
      intro hd
      have hdprev : j + d < ws.length := by omega
      have hstep := hchain (j + d) hd
      exact gdl_step wlist (ws.get ⟨j, hj⟩) hids hgr
        (hsub _ (ws.get_mem _ _)) hstep (ih hdprev)
  have hdown : ∀ d, d ≤ j →
      ∀ hd : j - d < ws.length,
      ∃ dw ∈ get_docked_list [] wlist (ws.get ⟨j, hj⟩) 0 0,
        dw.w = ws.get ⟨j - d, hd⟩ := by
    intro d
    induction d with
    | zero =>
      intro _ hd
      have : (⟨j - 0, hd⟩ : Fin ws.length) = ⟨j, hj⟩ := Fin.ext (Nat.sub_zero j)
      rw [this]
      exact hbase
    | succ d ih =>
      intro hdle hd
      have hprevlt : j - d < ws.length := by omega
      have hprev := ih (by omega) hprevlt
      have hsucclt : (j - (d + 1)) + 1 < ws.length := by omega
      have hstep := hchain (j - (d + 1)) hsucclt
      have hidx : (⟨j - (d + 1) + 1, hsucclt⟩ : Fin ws.length) = ⟨j - d, hprevlt⟩ :=
        Fin.ext (show j - (d + 1) + 1 = j - d by omega)
      rw [hidx] at hstep
      rw [is_dockedW_comm] at hstep
      exact gdl_step wlist (ws.get ⟨j, hj⟩) hids hgr
        (hsub _ (ws.get_mem _ _)) hstep hprev
  intro i hi
  have hmem : ∃ dw ∈ get_docked_list [] wlist (ws.get ⟨j, hj⟩) 0 0,
      dw.w = ws.get ⟨i, hi⟩ := by
    rcases le_or_lt j i with hle | hlt
    · have hd : j + (i - j) < ws.length := by omega
      have := hup (i - j) hd
      have hidx : (⟨j + (i - j), hd⟩ : Fin ws.length) = ⟨i, hi⟩ :=
        Fin.ext (show j + (i - j) = i by omega)
      rw [hidx] at this
      exact this
    · have hd : j - (j - i) < ws.length := by omega
      have := hdown (j - i) (by omega) hd
      have hidx : (⟨j - (j - i), hd⟩ : Fin ws.length) = ⟨i, hi⟩ :=
        Fin.ext (show j - (j - i) = i by omega)
      rw [hidx] at this
      exact this
  obtain ⟨dw, hdw, hweq⟩ := hmem
  have hoff := get_docked_list_offsets wlist (ws.get ⟨j, hj⟩) dw hdw
  exact ⟨dw, hdw, hweq, by rw [← hweq]; exact hoff.1, by rw [← hweq]; exact hoff.2⟩

/-- C4 witness: a horizontal chain of three 10×10 windows; the drag
starts from the middle one and the leftmost window is returned with
offset (-10, 0). -/
theorem claim_C4_witness :
    ∃ dw ∈ get_docked_list []
        [⟨1, 0, 0, 10, 10⟩, ⟨2, 10, 0, 10, 10⟩, ⟨3, 20, 0, 10, 10⟩]
        (([⟨1, 0, 0, 10, 10⟩, ⟨2, 10, 0, 10, 10⟩, ⟨3, 20, 0, 10, 10⟩] :
          List Window).get ⟨1, by decide⟩) 0 0,
      dw.w = ([⟨1, 0, 0, 10, 10⟩, ⟨2, 10, 0, 10, 10⟩, ⟨3, 20, 0, 10, 10⟩] :
          List Window).get ⟨0, by decide⟩ ∧
      dw.offset_x = (([⟨1, 0, 0, 10, 10⟩, ⟨2, 10, 0, 10, 10⟩, ⟨3, 20, 0, 10, 10⟩] :
          List Window).get ⟨0, by decide⟩).x -
        (([⟨1, 0, 0, 10, 10⟩, ⟨2, 10, 0, 10, 10⟩, ⟨3, 20, 0, 10, 10⟩] :
          List Window).get ⟨1, by decide⟩).x ∧
      dw.offset_y = (([⟨1, 0, 0, 10, 10⟩, ⟨2, 10, 0, 10, 10⟩, ⟨3, 20, 0, 10, 10⟩] :
          List Window).get ⟨0, by decide⟩).y -
        (([⟨1, 0, 0, 10, 10⟩, ⟨2, 10, 0, 10, 10⟩, ⟨3, 20, 0, 10, 10⟩] :
          List Window).get ⟨1, by decide⟩).y :=
  claim_C4 [⟨1, 0, 0, 10, 10⟩, ⟨2, 10, 0, 10, 10⟩, ⟨3, 20, 0, 10, 10⟩]
    [⟨1, 0, 0, 10, 10⟩, ⟨2, 10, 0, 10, 10⟩, ⟨3, 20, 0, 10, 10⟩]
    1 (by decide) (by decide) (by decide)
    (fun i h2 => by
      rcases i with _ | _ | n
      · rfl
      · rfl
      · exfalso
        simp at h2
        omega)
    0 (by decide)

end Dock
